import Mathlib

/-!
Verification of the MTProto worker's codec, crypto, auth-handshake and router
layers. JavaScript byte buffers (`Uint8Array`) are modelled as `List Nat`
whose elements are the byte values; JS numbers used as 32-bit wire integers
are modelled as `Int` (the `DataView` getters/setters make them exact), and
JS `BigInt` values as `Nat`. Thrown exceptions are modelled with
`Except String`, a caught-and-discarded exception with `Option`.
-/

namespace MTProto

/-- Value stored for a 32-bit word by `DataView.setInt32`/`setUint32`: the
argument reduced modulo 2^32 (two's complement for negative values), as a
natural number below 2^32. -/
def toUint32 (v : Int) : Nat := (v % (2 ^ 32 : Int)).toNat

/-- Value returned by `DataView.getInt32`: the 32-bit word reinterpreted as a
signed integer. The argument is the unsigned word (below 2^32). -/
def toInt32 (n : Nat) : Int := if n < 2 ^ 31 then (n : Int) else (n : Int) - 2 ^ 32

/-- Little-endian value of a byte list (each element taken at face value). -/
def leVal : List Nat → Nat
  | [] => 0
  | b :: bs => b + 256 * leVal bs

/-- The four little-endian bytes of a 32-bit word, as laid down by
`setUint32(…, true)`. -/
def le32 (n : Nat) : List Nat := [n % 256, n / 2 ^ 8 % 256, n / 2 ^ 16 % 256, n / 2 ^ 24 % 256]

/-- Bytes produced by `DataWriter.writeInt32` (little-endian `setInt32`). -/
def writeInt32Bytes (v : Int) : List Nat := le32 (toUint32 v)

/-- Bytes produced by `DataWriter.writeInt64`: low 32-bit word then high
32-bit word, each little-endian (`setUint32` wraps the high word mod 2^32). -/
def writeInt64Bytes (v : Nat) : List Nat := le32 (v % 2 ^ 32) ++ le32 (v / 2 ^ 32 % 2 ^ 32)

/-- Bytes produced by `DataWriter.writeString`: 32-bit length, payload, then
zero padding to a multiple of four bytes. -/
def writeStringBytes (s : List Nat) : List Nat :=
  writeInt32Bytes (s.length : Int) ++ s ++ List.replicate ((4 - s.length % 4) % 4) 0

/-- Clamped index arithmetic of `Array.prototype.slice`: a negative index
counts from the end, and both ends are clamped into `[0, len]`. -/
def jsIdx (len : Nat) (i : Int) : Nat :=
  if i < 0 then ((len : Int) + i).toNat else min i.toNat len

/-- `data.slice(s, e)` on a typed array: the elements of the clamped
half-open range. Never throws; out-of-range parts are simply absent. -/
def jsSlice (l : List Nat) (s e : Int) : List Nat :=
  (l.take (jsIdx l.length e)).drop (jsIdx l.length s)

/-- `dest.set(src, off)` on a typed array: overlays `src` at `off`, throwing
a `RangeError` (modelled as `none`) when `src` does not fit. -/
def jsSet (dest src : List Nat) (off : Nat) : Option (List Nat) :=
  if off + src.length ≤ dest.length then
    some (dest.take off ++ src ++ dest.drop (off + src.length))
  else none

/-- `DataReader` 32-bit unsigned read at a byte offset (`getUint32`
little-endian). Total form; reads used by the codec sit behind explicit
length guards that mirror the `DataView` bounds. -/
def readU32 (data : List Nat) (off : Nat) : Nat := leVal ((data.drop off).take 4)

/-- `DataReader.readInt32`: little-endian signed 32-bit read. -/
def readI32 (data : List Nat) (off : Nat) : Int := toInt32 (readU32 data off)

/-- `DataReader.readInt64`: low word plus 2^32 times high word, as the JS
code builds `BigInt(high) * 2^32 + BigInt(low)`. -/
def readU64 (data : List Nat) (off : Nat) : Nat :=
  readU32 data off + 2 ^ 32 * readU32 data (off + 4)

end MTProto

namespace MTProtoCodec

open MTProto

/-- Decoded outer frame, as returned by `MTProtoCodec.decode`. The JS object
also carries `messageLength` and the derived `isEncrypted` flag. -/
structure OuterMessage where
  authKeyId : Nat
  messageId : Nat
  messageLength : Int
  body : List Nat
  isEncrypted : Bool
  deriving Repr, DecidableEq

/-- Body of `MTProtoCodec.decode` before its `try/catch`: header reads after
the explicit 20-byte guard (which keeps every fixed-offset read inside the
`DataView` bounds), the length validation against `data.length - 16`, and the
`readBytes` body slice (which clamps, never throws). -/
def decodeAux (data : List Nat) : Except String OuterMessage :=
  if data.length < 20 then .error "Message too short"
  else
    let authKeyId := readU64 data 0
    let messageId := readU64 data 8
    let messageLength := readI32 data 16
    if messageLength > (data.length : Int) - 16 ∨ messageLength < 0 then
      .error "Invalid message length"
    else
      .ok { authKeyId := authKeyId, messageId := messageId,
            messageLength := messageLength,
            body := jsSlice data 20 (20 + messageLength),
            isEncrypted := decide (authKeyId ≠ 0) }

/-- `MTProtoCodec.decode`: the `catch` block logs and returns `null`, so any
internal failure is observable only as `none`. -/
def decode (data : List Nat) : Option OuterMessage := (decodeAux data).toOption

/-- `MTProtoCodec.encode`. `gen` is the value `generateMessageId()` would
produce; the JS `message.messageId || this.generateMessageId()` falls back to
it exactly when `messageId` is the falsy `0n`. `authKeyId || 0n` maps 0 to 0
and is the identity on naturals. The length field is written from the actual
body length with `writeInt32`. -/
def encode (authKeyId messageId : Nat) (body : List Nat) (gen : Nat) : List Nat :=
  writeInt64Bytes authKeyId ++
  writeInt64Bytes (if messageId = 0 then gen else messageId) ++
  writeInt32Bytes (body.length : Int) ++
  body

/-- Final contents of the `constructors` map (last `set` wins for the
duplicated key 0xa7eff811: `msg_copy` is overwritten by `bad_server_salt`). -/
def constructors : List (Nat × String) :=
  [(0x60469778, "req_pq"), (0x05162463, "resPQ"), (0xd712e4be, "req_DH_params"),
   (0xd0e8075c, "server_DH_params_ok"), (0xf5045f1f, "set_client_DH_params"),
   (0x3bcbf734, "dh_gen_ok"), (0x46dc1fb9, "dh_gen_retry"), (0xa69dae02, "dh_gen_fail"),
   (0x73f1f8dc, "msg_container"), (0xa7eff811, "bad_server_salt"),
   (0x276d3ec6, "msg_detailed_info"), (0x809db6df, "msg_new_detailed_info"),
   (0x62d6b459, "msgs_ack"), (0xedab447b, "bad_msg_notification"),
   (0x347773c5, "pong"), (0x7abe77ec, "ping"),
   (0x44f9b43d, "rpc_drop_answer"), (0x58e4a740, "rpc_answer_unknown"),
   (0x5e2ad36e, "rpc_answer_dropped_running"), (0xcd78e586, "rpc_answer_dropped")]

/-- `this.constructors.get(c) || 'unknown'`; the lookup compares the parsed
(signed) value against the (unsigned) literal keys with strict equality. -/
def constructorName (c : Int) : String :=
  match constructors.find? (fun kv => (kv.1 : Int) = c) with
  | some kv => kv.2
  | none => "unknown"

/-- Decoded inner frame of `MTProtoCodec.parseInnerMessage`. The JS field
named `constructor` is called `ctor` here (`constructor` is reserved in
Lean proofs); `constructorName` keeps its name. -/
structure InnerMessage where
  salt : Nat
  sessionId : Nat
  messageId : Nat
  seqNo : Int
  messageLength : Int
  ctor : Int
  ctorName : String
  data : List Nat
  deriving Repr, DecidableEq

/-- `MTProtoCodec.parseInnerMessage`: six fixed-offset reads (36 header
bytes; a shorter input makes one of the unguarded `DataView` reads throw a
`RangeError`, modelled as a single error value since no information about
how far the reads got escapes) and a clamping `readBytes(messageLength - 4)`
slice for the payload. -/
def parseInnerMessage (data : List Nat) : Except String InnerMessage :=
  if data.length < 36 then .error "RangeError"
  else
    let messageLength := readI32 data 28
    let ctor := readI32 data 32
    .ok { salt := readU64 data 0, sessionId := readU64 data 8,
          messageId := readU64 data 16, seqNo := readI32 data 24,
          messageLength := messageLength, ctor := ctor,
          ctorName := constructorName ctor,
          data := jsSlice data 36 (36 + (messageLength - 4)) }

/-- `MTProtoCodec.encodeInnerMessage`. `gen` plays the role of
`generateMessageId()` for the falsy-`messageId` fallback; the other `|| 0`
defaults are the identity on the modelled values. The length field is
recomputed as `4 + data.length`. -/
def encodeInnerMessage (salt sessionId messageId : Nat) (seqNo : Int) (ctor : Int)
    (data : List Nat) (gen : Nat) : List Nat :=
  writeInt64Bytes salt ++
  writeInt64Bytes sessionId ++
  writeInt64Bytes (if messageId = 0 then gen else messageId) ++
  writeInt32Bytes seqNo ++
  writeInt32Bytes ((4 : Int) + data.length) ++
  writeInt32Bytes ctor ++
  data

/-- `MTProtoCodec.generateMessageId`: seconds-timestamp in the high 32 bits,
a 32-bit counter below. -/
def generateMessageId (nowSeconds counter : Nat) : Nat :=
  nowSeconds * 2 ^ 32 + counter

/-- `MTProtoCodec.validateMessage`. The JS guard `!message || !message.messageId
|| !message.body` rejects a falsy (zero) message id; a `Uint8Array` body is
always truthy, so `hasBody` records only whether a body field is present at
all. The window test compares `|messageId / 2^32 - Date.now() / 1000|` with
300; it is modelled over `ℚ`. (The JS computation runs in binary floating
point; at the integral boundary values of the freshness claims every
intermediate double is exact, so the rational model agrees with it there.) -/
def validateMessage (messageId : Nat) (hasBody : Bool) (nowMs : Nat) : Bool :=
  if messageId = 0 ∨ hasBody = false then false
  else
    let msgTime : ℚ := (messageId : ℚ) / 2 ^ 32
    let now : ℚ := (nowMs : ℚ) / 1000
    if (300 : ℚ) < |msgTime - now| then false else true

end MTProtoCodec

namespace DataReader

open MTProto

/-- Values a decoded vector element can take: `readInt32` yields a JS number
(signed), `readInt64` a JS `BigInt` (unsigned). -/
inductive TLValue where
  | jsNumber : Int → TLValue
  | jsBigInt : Nat → TLValue
  deriving Repr, DecidableEq

/-- One iteration of the `readVector` loop: decode a single element of the
stated type at `off`, returning the element and the advanced offset. An
element kind other than `int`/`long` hits the `default` branch and throws
before touching the buffer; an out-of-bounds read throws a `RangeError`. -/
def readVectorElem (data : List Nat) (type : String) (off : Nat) :
    Except String (TLValue × Nat) :=
  if type = "int" then
    if off + 4 ≤ data.length then .ok (.jsNumber (readI32 data off), off + 4)
    else .error "RangeError"
  else if type = "long" then
    if off + 8 ≤ data.length then .ok (.jsBigInt (readU64 data off), off + 8)
    else .error "RangeError"
  else .error ("Unknown vector type: " ++ type)

/-- The `for (let i = 0; i < count; i++)` loop of `readVector`, with `k`
iterations remaining. -/
def readVectorLoop (data : List Nat) (type : String) :
    Nat → Nat → Except String (List TLValue × Nat)
  | 0, off => .ok ([], off)
  | k + 1, off =>
    match readVectorElem data type off with
    | .error e => .error e
    | .ok (v, off2) =>
      match readVectorLoop data type k off2 with
      | .error e => .error e
      | .ok (vs, off3) => .ok (v :: vs, off3)

/-- `DataReader.readVector`: reads a signed 32-bit count (a negative count
makes the loop run zero times, exactly as `i < count` never holds), then
decodes that many elements. The returned offset models the reader cursor. -/
def readVector (data : List Nat) (off : Nat) (type : String) :
    Except String (List TLValue × Nat) :=
  if off + 4 ≤ data.length then
    readVectorLoop data type (readI32 data off).toNat (off + 4)
  else .error "RangeError"

end DataReader

namespace CryptoModule

open MTProto

/-- `CryptoModule.xorBytes`: result length is the larger of the two inputs,
missing elements read as 0 (`a[i] || 0`). -/
def xorBytes (a b : List Nat) : List Nat :=
  (List.range (max a.length b.length)).map (fun i => (a.getD i 0) ^^^ (b.getD i 0))

/-- The block loop of `encryptAES_IGE`. `E` is the per-block AES-ECB encrypt
primitive (`encryptAESBlock` with the key applied), `data` the full input,
`i` the loop index, `prevC`/`prevP` the chaining state and `enc` the
preallocated output array. Writing a result block past the end of `enc`
(`encrypted.set(resultBlock, i)`) throws a `RangeError`. -/
def igeEncryptGo (E : List Nat → List Nat) (data : List Nat) (i : Nat)
    (prevC prevP enc : List Nat) : Except String (List Nat) :=
  if _h : i < data.length then
    let plainBlock := (data.drop i).take 16
    let xorBlock := xorBytes plainBlock prevC
    let cipherBlock := E xorBlock
    let resultBlock := xorBytes cipherBlock prevP
    match jsSet enc resultBlock i with
    | none => .error "RangeError"
    | some enc2 => igeEncryptGo E data (i + 16) resultBlock plainBlock enc2
  else .ok enc
  termination_by data.length - i
  decreasing_by omega

/-- `CryptoModule.encryptAES_IGE`. The AES primitive is supplied as a keyed
function `E` (the source delegates single blocks to WebCrypto AES-ECB);
`iv.slice(0,16)` and `iv.slice(16,32)` seed the two chaining values and the
output array starts as `data.length` zero bytes. -/
def encryptAES_IGE (E : List Nat → List Nat → List Nat) (data key iv : List Nat) :
    Except String (List Nat) :=
  igeEncryptGo (E key) data 0 (jsSlice iv 0 16) (jsSlice iv 16 32)
    (List.replicate data.length 0)

/-- The block loop of `decryptAES_IGE`: the raw cipher chunk becomes the next
`prevC`, the produced plain block the next `prevP`. -/
def igeDecryptGo (D : List Nat → List Nat) (data : List Nat) (i : Nat)
    (prevC prevP dec : List Nat) : Except String (List Nat) :=
  if _h : i < data.length then
    let cipherBlock := (data.drop i).take 16
    let xorBlock := xorBytes cipherBlock prevP
    let plainBlock := D xorBlock
    let resultBlock := xorBytes plainBlock prevC
    match jsSet dec resultBlock i with
    | none => .error "RangeError"
    | some dec2 => igeDecryptGo D data (i + 16) cipherBlock resultBlock dec2
  else .ok dec
  termination_by data.length - i
  decreasing_by omega

/-- `CryptoModule.decryptAES_IGE`, with the keyed AES-ECB decrypt primitive
`D` supplied as a function. -/
def decryptAES_IGE (D : List Nat → List Nat → List Nat) (data key iv : List Nat) :
    Except String (List Nat) :=
  igeDecryptGo (D key) data 0 (jsSlice iv 0 16) (jsSlice iv 16 32)
    (List.replicate data.length 0)

end CryptoModule

namespace AuthHandler

open MTProto

/-- `bigIntToBytes`: the big-endian base-256 digits of a natural number,
exactly the byte pairs of its even-length-padded hex string (`[0]` for 0). -/
def bigIntToBytes (n : Nat) : List Nat :=
  if _h : n < 256 then [n] else bigIntToBytes (n / 256) ++ [n % 256]
  termination_by n
  decreasing_by omega

/-- Lower-case hex digit character, as produced by `Number.toString(16)`. -/
def hexChar (n : Nat) : Char :=
  if n < 10 then Char.ofNat (48 + n) else Char.ofNat (87 + n)

/-- `bytesToHex`: each byte as two lower-case hex digits
(`toString(16).padStart(2, '0')`), concatenated. -/
def bytesToHex (bs : List Nat) : String :=
  String.mk ((bs.map (fun b => [hexChar (b % 256 / 16), hexChar (b % 16)])).flatten)

/-- `arraysEqual`: length check plus element-by-element strict equality,
which on byte lists is exactly list equality. -/
def arraysEqual (a b : List Nat) : Bool := a == b

/-- DH parameters stored on the session by step 2 (`generateDHParams`
output: generator, prime and server public value). -/
structure DHParams where
  g : Nat
  dhPrime : Nat
  ga : Nat
  deriving Repr, DecidableEq

/-- An in-progress handshake record of `this.tempSessions`. Fields written
by later steps start absent (`undefined`). -/
structure AuthSession where
  nonce : List Nat
  serverNonce : List Nat
  p : List Nat
  q : List Nat
  pq : List Nat
  created : Nat
  dhParams : Option DHParams := none
  publicKeyFingerprint : Option Nat := none
  authKey : Option (List Nat) := none
  authKeyId : Option (List Nat) := none
  deriving Repr, DecidableEq

/-- `Map.prototype.get` on the session table. -/
def mapGet (m : List (String × AuthSession)) (k : String) : Option AuthSession :=
  (m.find? (fun kv => kv.1 = k)).map (fun kv => kv.2)

/-- `Map.prototype.set` on the session table: replaces the value under an
existing key, otherwise appends. In-place mutation of a stored session
object is modelled as a `mapSet` of the updated record. -/
def mapSet (m : List (String × AuthSession)) (k : String) (v : AuthSession) :
    List (String × AuthSession) :=
  if (m.find? (fun kv => kv.1 = k)).isSome then
    m.map (fun kv => if kv.1 = k then (k, v) else kv)
  else m ++ [(k, v)]

/-- `generatePQ`: the fixed demo factors 17 and 19 and their product,
converted by `bigIntToBytes`. -/
def generatePQ : List Nat × List Nat × List Nat :=
  (bigIntToBytes 17, bigIntToBytes 19, bigIntToBytes (17 * 19))

/-- Fingerprint of the single RSA key installed by the constructor. -/
def knownFingerprint : Nat := 0x216be86c022bb4c3

/-- `createResPQ`: constructor word, both nonces, the length-prefixed `pq`
string and the fingerprint vector. -/
def createResPQ (nonce serverNonce pq : List Nat) (fingerprints : List Nat) : List Nat :=
  writeInt32Bytes 0x05162463 ++ nonce ++ serverNonce ++ writeStringBytes pq ++
  writeInt32Bytes 0x1cb5c415 ++ writeInt32Bytes (fingerprints.length : Int) ++
  (fingerprints.map writeInt64Bytes).flatten

/-- `createServerDHParamsOk`: the `dhParams` argument of the source is never
serialized; the payload is the random `encryptedAnswer`, supplied here as a
parameter. -/
def createServerDHParamsOk (nonce serverNonce encryptedAnswer : List Nat) : List Nat :=
  writeInt32Bytes 0xd0e8075c ++ nonce ++ serverNonce ++ writeStringBytes encryptedAnswer

/-- `createDHGenOk`: constructor word, both echoed nonces and the raw
16-byte hash. -/
def createDHGenOk (nonce serverNonce newNonceHash1 : List Nat) : List Nat :=
  writeInt32Bytes 0x3bcbf734 ++ nonce ++ serverNonce ++ newNonceHash1

/-- `AuthHandler.handleReqPq`. The random `serverNonce` and the clock are
parameters; the client nonce is `body.slice(4, 20)`. Returns the `resPQ`
bytes and the table with the new session stored under the hex of the nonce. -/
def handleReqPq (sessions : List (String × AuthSession)) (body serverNonce : List Nat)
    (nowMs : Nat) : List Nat × List (String × AuthSession) :=
  let nonce := jsSlice body 4 20
  let pqTriple := generatePQ
  let response := createResPQ nonce serverNonce pqTriple.2.2 [knownFingerprint]
  (response,
   mapSet sessions (bytesToHex nonce)
     { nonce := nonce, serverNonce := serverNonce, p := pqTriple.1,
       q := pqTriple.2.1, pq := pqTriple.2.2, created := nowMs })

/-- A 32-bit read in the step-2/step-3 parsers. The source builds
`new DataView(body.buffer, body.byteOffset + offset)` and then calls
`getUint32(offset, true)` on it, so the word is actually read at byte
`2 * offset` of `body` (the handlers receive `body` as a fresh slice, so
`byteOffset` is 0); out of bounds throws a `RangeError`. -/
def readU32dbl (body : List Nat) (off : Nat) : Option Nat :=
  if 2 * off + 4 ≤ body.length then some (leVal ((body.drop (2 * off)).take 4)) else none

/-- A `getBigUint64` read with the same doubled-offset layout as
`readU32dbl`. -/
def readU64dbl (body : List Nat) (off : Nat) : Option Nat :=
  if 2 * off + 8 ≤ body.length then
    some (leVal ((body.drop (2 * off)).take 4) +
      2 ^ 32 * leVal ((body.drop (2 * off + 4)).take 4))
  else none

/-- The fields extracted by the step-2 request parser. -/
structure ReqDHParams where
  nonce : List Nat
  serverNonce : List Nat
  p : List Nat
  q : List Nat
  fingerprint : Nat
  encryptedData : List Nat
  deriving Repr, DecidableEq

/-- The parsing prefix of `handleReqDHParams`: nonce and server nonce by
slice, then the `p`/`q` length-prefixed strings (with 4-byte padding
advances), the key fingerprint and the encrypted-data blob. `none` models a
`RangeError` from one of the unguarded `DataView` reads. -/
def parseReqDHParams (body : List Nat) : Option ReqDHParams :=
  let nonce := jsSlice body 4 20
  let serverNonce := jsSlice body 20 36
  match readU32dbl body 36 with
  | none => none
  | some pLength =>
    let p := jsSlice body 40 (40 + (pLength : Int))
    let off1 := 40 + pLength + (4 - pLength % 4) % 4
    match readU32dbl body off1 with
    | none => none
    | some qLength =>
      let q := jsSlice body (off1 + 4 : Nat) ((off1 + 4 + qLength : Nat) : Int)
      let off2 := off1 + 4 + qLength + (4 - qLength % 4) % 4
      match readU64dbl body off2 with
      | none => none
      | some fingerprint =>
        match readU32dbl body (off2 + 8) with
        | none => none
        | some encDataLength =>
          some { nonce := nonce, serverNonce := serverNonce, p := p, q := q,
                 fingerprint := fingerprint,
                 encryptedData :=
                   jsSlice body (off2 + 12 : Nat) ((off2 + 12 + encDataLength : Nat) : Int) }

/-- `AuthHandler.handleReqDHParams`. Randomness (`generateDHParams` result,
`encryptedAnswer`) enters as parameters; the `catch` block rethrows, so
failures stay visible as errors, with the table returned unchanged. -/
def handleReqDHParams (sessions : List (String × AuthSession)) (body : List Nat)
    (dhParams : DHParams) (encryptedAnswer : List Nat) :
    Except String (List Nat) × List (String × AuthSession) :=
  match parseReqDHParams body with
  | none => (.error "RangeError", sessions)
  | some r =>
    let sessionKey := bytesToHex r.nonce
    match mapGet sessions sessionKey with
    | none => (.error "Session not found", sessions)
    | some session =>
      if !(arraysEqual r.nonce session.nonce) || !(arraysEqual r.serverNonce session.serverNonce) then
        (.error "Nonce mismatch", sessions)
      else if r.fingerprint ≠ knownFingerprint then
        (.error "Unknown public key fingerprint", sessions)
      else
        (.ok (createServerDHParamsOk r.nonce r.serverNonce encryptedAnswer),
         mapSet sessions sessionKey
           { session with dhParams := some dhParams,
                          publicKeyFingerprint := some r.fingerprint })

/-- `AuthHandler.handleSetClientDHParams`. The random 2048-bit `authKey` and
the SHA-1 primitive (WebCrypto) are parameters. Note the source validates
only that a session exists under the nonce key: the supplied server nonce is
never compared with the stored one, and nothing is ever deleted here. -/
def handleSetClientDHParams (sessions : List (String × AuthSession)) (body authKey : List Nat)
    (sha1 : List Nat → List Nat) :
    Except String (List Nat) × List (String × AuthSession) :=
  let nonce := jsSlice body 4 20
  let serverNonce := jsSlice body 20 36
  match readU32dbl body 36 with
  | none => (.error "RangeError", sessions)
  | some encDataLength =>
    let _encryptedData := jsSlice body 40 (40 + (encDataLength : Int))
    let sessionKey := bytesToHex nonce
    match mapGet sessions sessionKey with
    | none => (.error "Session not found", sessions)
    | some session =>
      let authKeyHash := sha1 authKey
      let authKeyId := jsSlice authKeyHash (-8) authKeyHash.length
      let newNonceHash1 := jsSlice authKeyHash 0 16
      (.ok (createDHGenOk nonce serverNonce newNonceHash1),
       mapSet sessions sessionKey
         { session with authKey := some authKey, authKeyId := some authKeyId })

end AuthHandler

namespace MessageHandler

open MTProto

/-- The decoded inner message as the router sees it (the JS `constructor`
field is again called `ctor`). -/
structure RouterMessage where
  authKeyId : Nat
  messageId : Nat
  ctor : Int
  data : List Nat
  deriving Repr, DecidableEq

/-- The reply object built by `createResponse`. -/
structure RouterResponse where
  authKeyId : Nat
  messageId : Nat
  body : List Nat
  deriving Repr, DecidableEq

/-- A registered opcode handler: returns a reply, `none` for "no reply", or
throws. -/
def HandlerFn : Type := RouterMessage → Except String (Option RouterResponse)

/-- UTF-8 bytes of a response string (`TextEncoder`); the strings written
here are ASCII, for which the encoding is the character codes. -/
def jsStrBytes (s : String) : List Nat := s.data.map Char.toNat

/-- `MessageHandler.createResponse`: echoes `authKeyId` (`|| 0n` is the
identity on naturals), stamps a fresh id (`gen` models
`generateMessageId()`), and prefixes the body with the constructor word. -/
def createResponse (orig : RouterMessage) (ctor : Int) (bodyRest : List Nat)
    (gen : Nat) : RouterResponse :=
  { authKeyId := orig.authKeyId, messageId := gen,
    body := writeInt32Bytes ctor ++ bodyRest }

/-- `MessageHandler.createErrorResponse`: constructor 0x2144ca19, error code
500 and the error message (`error.message || 'Internal error'`: an empty
message string is falsy) as a length-prefixed string. -/
def createErrorResponse (orig : RouterMessage) (errMsg : String) (gen : Nat) : RouterResponse :=
  createResponse orig 0x2144ca19
    (writeInt32Bytes 500 ++
     writeStringBytes (jsStrBytes (if errMsg = "" then "Internal error" else errMsg))) gen

/-- `MessageHandler.handleUnknownMethod`: the demo fallback never reaches
its own `catch` and returns the structured "Method not implemented" error
reply. -/
def handleUnknownMethod (msg : RouterMessage) (gen : Nat) : Option RouterResponse :=
  some (createErrorResponse msg "Method not implemented" gen)

/-- `MessageHandler.handle`: look the opcode up in `this.messageHandlers`
(a table modelled as the association list it is built up as), run the
handler, fall back to `handleUnknownMethod` for unknown opcodes, and turn
any exception a handler throws into `createErrorResponse(message, error)`. -/
def handle (table : List (Int × HandlerFn)) (msg : RouterMessage) (gen : Nat) :
    Option RouterResponse :=
  match (table.find? (fun kv => kv.1 = msg.ctor)).map (fun kv => kv.2) with
  | some h =>
    match h msg with
    | .ok r => r
    | .error e => some (createErrorResponse msg e gen)
  | none => handleUnknownMethod msg gen

end MessageHandler

namespace MTProto

lemma le32_length (n : Nat) : (le32 n).length = 4 := rfl

lemma leVal_le32 (n : Nat) (h : n < 2 ^ 32) : leVal (le32 n) = n := by
  simp [le32, leVal]; omega

lemma readU32_zero_le32 (n : Nat) (rest : List Nat) (h : n < 2 ^ 32) :
    readU32 (le32 n ++ rest) 0 = n := by
  unfold readU32
  rw [List.drop_zero, show (4 : Nat) = (le32 n).length from rfl, List.take_left]
  exact leVal_le32 n h

lemma readU32_peel (m : Nat) (rest : List Nat) (k : Nat) :
    readU32 (le32 m ++ rest) (4 + k) = readU32 rest k := by
  unfold readU32
  rw [show 4 + k = (le32 m).length + k from rfl, List.drop_append]

/-- Helper for the round-trip proofs: the byte image of a list of 32-bit
words, as a `DataWriter` emits them. -/
def wordsBytes (ws : List Nat) : List Nat := (ws.map le32).flatten

lemma wordsBytes_cons (w : Nat) (ws : List Nat) :
    wordsBytes (w :: ws) = le32 w ++ wordsBytes ws := rfl

lemma length_wordsBytes (ws : List Nat) : (wordsBytes ws).length = 4 * ws.length := by
  induction ws with
  | nil => rfl
  | cons w ws ih => simp [wordsBytes_cons, le32_length, ih]; omega

lemma readU32_wordsBytes (ws : List Nat) (rest : List Nat) (i : Nat) (hi : i < ws.length)
    (hw : ∀ w ∈ ws, w < 2 ^ 32) :
    readU32 (wordsBytes ws ++ rest) (4 * i) = ws.getD i 0 := by
  induction ws generalizing i with
  | nil => simp at hi
  | cons w ws ih =>
    cases i with
    | zero =>
      rw [wordsBytes_cons, List.append_assoc]
      simpa using readU32_zero_le32 w (wordsBytes ws ++ rest) (hw w (by simp))
    | succ j =>
      rw [wordsBytes_cons, List.append_assoc, show 4 * (j + 1) = 4 + 4 * j by ring,
        readU32_peel]
      simpa using ih j (by simpa using hi) (fun w hwmem => hw w (by simp [hwmem]))

lemma readU64_wordsBytes (ws : List Nat) (rest : List Nat) (i : Nat) (hi : i + 1 < ws.length)
    (hw : ∀ w ∈ ws, w < 2 ^ 32) :
    readU64 (wordsBytes ws ++ rest) (4 * i) = ws.getD i 0 + 2 ^ 32 * ws.getD (i + 1) 0 := by
  unfold readU64
  rw [readU32_wordsBytes ws rest i (by omega) hw, show 4 * i + 4 = 4 * (i + 1) by ring,
    readU32_wordsBytes ws rest (i + 1) hi hw]

lemma drop_wordsBytes (ws : List Nat) (rest : List Nat) :
    (wordsBytes ws ++ rest).drop (4 * ws.length) = rest := by
  rw [show 4 * ws.length = (wordsBytes ws).length from (length_wordsBytes ws).symm,
    List.drop_left]

lemma toUint32_natCast (n : Nat) (h : n < 2 ^ 32) : toUint32 (n : Int) = n := by
  unfold toUint32; omega

lemma toUint32_lt (v : Int) : toUint32 v < 2 ^ 32 := by
  unfold toUint32; omega

lemma toInt32_toUint32 (v : Int) (h1 : -2 ^ 31 ≤ v) (h2 : v < 2 ^ 31) :
    toInt32 (toUint32 v) = v := by
  unfold toInt32 toUint32
  split <;> omega

lemma jsIdx_natCast (len s : Nat) : jsIdx len (s : Int) = min s len := by
  unfold jsIdx
  rw [if_neg (by omega)]
  simp

end MTProto

namespace MTProtoCodec

open MTProto

lemma jsIdx_nonneg (len : Nat) (i : Int) (h : 0 ≤ i) : jsIdx len i = min i.toNat len := by
  unfold jsIdx; rw [if_neg (by omega)]

lemma encode_eq_wordsBytes (a m : Nat) (body : List Nat) (g : Nat) :
    encode a m body g =
      wordsBytes [a % 2 ^ 32, a / 2 ^ 32 % 2 ^ 32,
        (if m = 0 then g else m) % 2 ^ 32, (if m = 0 then g else m) / 2 ^ 32 % 2 ^ 32,
        toUint32 (body.length : Int)] ++ body := by
  simp [encode, wordsBytes, writeInt64Bytes, writeInt32Bytes, List.append_assoc]

lemma decode_encode_aux (akid mid : Nat) (body : List Nat) (g : Nat)
    (ha : akid < 2 ^ 64) (hm : mid < 2 ^ 64) (hm0 : mid ≠ 0) (hb : body.length < 2 ^ 31) :
    decode (encode akid mid body g) =
      some { authKeyId := akid, messageId := mid, messageLength := (body.length : Int),
             body := body, isEncrypted := decide (akid ≠ 0) } := by
  have e_eq := encode_eq_wordsBytes akid mid body g
  rw [if_neg hm0] at e_eq
  set ws : List Nat := [akid % 2 ^ 32, akid / 2 ^ 32 % 2 ^ 32,
    mid % 2 ^ 32, mid / 2 ^ 32 % 2 ^ 32, toUint32 (body.length : Int)] with hws
  have hw : ∀ w ∈ ws, w < 2 ^ 32 := by
    intro w hmem
    simp [hws] at hmem
    rcases hmem with h | h | h | h | h <;> subst h
    case _ => omega
    case _ => omega
    case _ => omega
    case _ => omega
    case _ => exact toUint32_lt _
  have hlen : (encode akid mid body g).length = 20 + body.length := by
    rw [e_eq]
    simp [length_wordsBytes, hws]
  have h0 : readU64 (encode akid mid body g) 0 = akid := by
    rw [e_eq, show (0 : Nat) = 4 * 0 from rfl,
      readU64_wordsBytes ws body 0 (by simp [hws]) hw]
    simp [hws]
    omega
  have h8 : readU64 (encode akid mid body g) 8 = mid := by
    rw [e_eq, show (8 : Nat) = 4 * 2 from rfl,
      readU64_wordsBytes ws body 2 (by simp [hws]) hw]
    simp [hws]
    omega
  have h16 : readI32 (encode akid mid body g) 16 = (body.length : Int) := by
    unfold readI32
    rw [e_eq, show (16 : Nat) = 4 * 4 from rfl,
      readU32_wordsBytes ws body 4 (by simp [hws]) hw]
    simp [hws]
    rw [toInt32_toUint32 _ (by omega) (by exact_mod_cast hb)]
  have hbody : jsSlice (encode akid mid body g) 20 (20 + (body.length : Int)) = body := by
    unfold jsSlice
    rw [jsIdx_nonneg _ _ (by omega), jsIdx_nonneg _ _ (by omega)]
    have h1 : ((20 : Int) + (body.length : Int)).toNat = 20 + body.length := by omega
    have h2 : ((20 : Int)).toNat = 20 := rfl
    rw [h1, h2, hlen, min_self, min_eq_left (by omega), ← hlen, List.take_length, e_eq,
      show (20 : Nat) = 4 * ws.length by simp [hws], drop_wordsBytes]
  unfold decode decodeAux
  simp only [hlen, h0, h8, h16]
  rw [if_neg (by omega), if_neg (by push_cast; omega)]
  simp [Except.toOption, hbody]

lemma encodeInner_eq_wordsBytes (salt sid mid : Nat) (seqNo ctor : Int)
    (data : List Nat) (g : Nat) :
    encodeInnerMessage salt sid mid seqNo ctor data g =
      wordsBytes [salt % 2 ^ 32, salt / 2 ^ 32 % 2 ^ 32, sid % 2 ^ 32, sid / 2 ^ 32 % 2 ^ 32,
        (if mid = 0 then g else mid) % 2 ^ 32, (if mid = 0 then g else mid) / 2 ^ 32 % 2 ^ 32,
        toUint32 seqNo, toUint32 ((4 : Int) + data.length), toUint32 ctor] ++ data := by
  simp [encodeInnerMessage, wordsBytes, writeInt64Bytes, writeInt32Bytes, List.append_assoc]

lemma parseInner_encodeInner_aux (salt sid mid : Nat) (seqNo ctor : Int)
    (data : List Nat) (g : Nat)
    (hsalt : salt < 2 ^ 64) (hsid : sid < 2 ^ 64) (hmid : mid < 2 ^ 64) (hm0 : mid ≠ 0)
    (hs1 : -2 ^ 31 ≤ seqNo) (hs2 : seqNo < 2 ^ 31)
    (hc1 : -2 ^ 31 ≤ ctor) (hc2 : ctor < 2 ^ 31)
    (hd : 4 + data.length < 2 ^ 31) :
    parseInnerMessage (encodeInnerMessage salt sid mid seqNo ctor data g) =
      .ok { salt := salt, sessionId := sid, messageId := mid, seqNo := seqNo,
            messageLength := (4 : Int) + data.length, ctor := ctor,
            ctorName := constructorName ctor, data := data } := by
  have e_eq := encodeInner_eq_wordsBytes salt sid mid seqNo ctor data g
  rw [if_neg hm0] at e_eq
  set ws : List Nat := [salt % 2 ^ 32, salt / 2 ^ 32 % 2 ^ 32, sid % 2 ^ 32,
    sid / 2 ^ 32 % 2 ^ 32, mid % 2 ^ 32, mid / 2 ^ 32 % 2 ^ 32,
    toUint32 seqNo, toUint32 ((4 : Int) + data.length), toUint32 ctor] with hws
  have hw : ∀ w ∈ ws, w < 2 ^ 32 := by
    intro w hmem
    simp [hws] at hmem
    rcases hmem with h | h | h | h | h | h | h | h | h <;> subst h
    case _ => omega
    case _ => omega
    case _ => omega
    case _ => omega
    case _ => omega
    case _ => omega
    case _ => exact toUint32_lt _
    case _ => exact toUint32_lt _
    case _ => exact toUint32_lt _
  have hlen : (encodeInnerMessage salt sid mid seqNo ctor data g).length = 36 + data.length := by
    rw [e_eq]
    simp [length_wordsBytes, hws]
  have h0 : readU64 (encodeInnerMessage salt sid mid seqNo ctor data g) 0 = salt := by
    rw [e_eq, show (0 : Nat) = 4 * 0 from rfl,
      readU64_wordsBytes ws data 0 (by simp [hws]) hw]
    simp [hws]
    omega
  have h8 : readU64 (encodeInnerMessage salt sid mid seqNo ctor data g) 8 = sid := by
    rw [e_eq, show (8 : Nat) = 4 * 2 from rfl,
      readU64_wordsBytes ws data 2 (by simp [hws]) hw]
    simp [hws]
    omega
  have h16 : readU64 (encodeInnerMessage salt sid mid seqNo ctor data g) 16 = mid := by
    rw [e_eq, show (16 : Nat) = 4 * 4 from rfl,
      readU64_wordsBytes ws data 4 (by simp [hws]) hw]
    simp [hws]
    omega
  have h24 : readI32 (encodeInnerMessage salt sid mid seqNo ctor data g) 24 = seqNo := by
    unfold readI32
    rw [e_eq, show (24 : Nat) = 4 * 6 from rfl,
      readU32_wordsBytes ws data 6 (by simp [hws]) hw]
    simp [hws]
    rw [toInt32_toUint32 _ hs1 hs2]
  have h28 : readI32 (encodeInnerMessage salt sid mid seqNo ctor data g) 28 =
      (4 : Int) + data.length := by
    unfold readI32
    rw [e_eq, show (28 : Nat) = 4 * 7 from rfl,
      readU32_wordsBytes ws data 7 (by simp [hws]) hw]
    simp [hws]
    rw [toInt32_toUint32 _ (by omega) (by exact_mod_cast hd)]
  have h32 : readI32 (encodeInnerMessage salt sid mid seqNo ctor data g) 32 = ctor := by
    unfold readI32
    rw [e_eq, show (32 : Nat) = 4 * 8 from rfl,
      readU32_wordsBytes ws data 8 (by simp [hws]) hw]
    simp [hws]
    rw [toInt32_toUint32 _ hc1 hc2]
  have hdata : jsSlice (encodeInnerMessage salt sid mid seqNo ctor data g) 36
      (36 + ((4 : Int) + data.length - 4)) = data := by
    unfold jsSlice
    rw [jsIdx_nonneg _ _ (by omega), jsIdx_nonneg _ _ (by omega)]
    have h1 : ((36 : Int) + ((4 : Int) + data.length - 4)).toNat = 36 + data.length := by omega
    have h2 : ((36 : Int)).toNat = 36 := rfl
    rw [h1, h2, hlen, min_self, min_eq_left (by omega), ← hlen, List.take_length, e_eq,
      show (36 : Nat) = 4 * ws.length by simp [hws], drop_wordsBytes]
  unfold parseInnerMessage
  simp only [hlen, h0, h8, h16, h24, h28, h32]
  rw [if_neg (by omega)]
  simp only [hdata]

end MTProtoCodec

namespace MTProtoCodec

open MTProto

lemma jsSlice_drop_take (data : List Nat) (L : Int) (h20 : 20 ≤ data.length) (hL : 0 ≤ L) :
    jsSlice data 20 (20 + L) = (data.drop 20).take L.toNat := by
  unfold jsSlice
  rw [jsIdx_nonneg _ _ (by omega), jsIdx_nonneg _ _ (by omega)]
  have h2 : ((20 : Int)).toNat = 20 := rfl
  have h1 : ((20 : Int) + L).toNat = 20 + L.toNat := by omega
  rw [h1, h2, min_eq_left h20]
  rcases le_or_lt (20 + L.toNat) data.length with hle | hlt
  · rw [min_eq_left hle, List.drop_take]
    simp
  · rw [min_eq_right (by omega), List.take_length,
      List.take_of_length_le (by simp [List.length_drop]; omega)]

end MTProtoCodec

/-- C2 (amended): the outer round-trip `decode (encode m)` restores
`authKeyId`, `messageId` and `body`, and the inner round-trip
`parseInnerMessage (encodeInnerMessage m)` restores `salt`, `sessionId`,
`messageId`, `seqNo`, `constructor` and `data` with the encoded length field
equal to `4 + data.length` — provided `messageId ≠ 0` (a falsy zero id is
replaced by a freshly generated one), the 64-bit fields are below 2^64,
`seqNo` and `constructor` are in signed-32-bit range, and the payload is
short enough for its 32-bit signed length field. -/
theorem claim_C2_roundtrip_amended :
    (∀ (akid mid : Nat) (body : List Nat) (g : Nat),
      akid < 2 ^ 64 → mid < 2 ^ 64 → mid ≠ 0 → body.length < 2 ^ 31 →
      MTProtoCodec.decode (MTProtoCodec.encode akid mid body g) =
        some { authKeyId := akid, messageId := mid, messageLength := (body.length : Int),
               body := body, isEncrypted := decide (akid ≠ 0) }) ∧
    (∀ (salt sid mid : Nat) (seqNo ctor : Int) (data : List Nat) (g : Nat),
      salt < 2 ^ 64 → sid < 2 ^ 64 → mid < 2 ^ 64 → mid ≠ 0 →
      -2 ^ 31 ≤ seqNo → seqNo < 2 ^ 31 → -2 ^ 31 ≤ ctor → ctor < 2 ^ 31 →
      4 + data.length < 2 ^ 31 →
      MTProtoCodec.parseInnerMessage
          (MTProtoCodec.encodeInnerMessage salt sid mid seqNo ctor data g) =
        .ok { salt := salt, sessionId := sid, messageId := mid, seqNo := seqNo,
              messageLength := (4 : Int) + data.length, ctor := ctor,
              ctorName := MTProtoCodec.constructorName ctor, data := data }) :=
  ⟨fun akid mid body g ha hm hm0 hb =>
      MTProtoCodec.decode_encode_aux akid mid body g ha hm hm0 hb,
   fun salt sid mid seqNo ctor data g hsalt hsid hmid hm0 hs1 hs2 hc1 hc2 hd =>
      MTProtoCodec.parseInner_encodeInner_aux salt sid mid seqNo ctor data g
        hsalt hsid hmid hm0 hs1 hs2 hc1 hc2 hd⟩

/-- C2 counterexample: the round-trip fails as universally stated. Encoding
an outer message whose `messageId` is 0 (with `generateMessageId` returning
the timestamp-1 id 2^32) decodes to `messageId = 2^32`, not the original 0:
`messageId || generateMessageId()` silently replaces the falsy zero id. -/
theorem claim_C2_counterexample :
    MTProtoCodec.decode
        (MTProtoCodec.encode 0 0 [] (MTProtoCodec.generateMessageId 1 0)) =
      some { authKeyId := 0, messageId := 2 ^ 32, messageLength := 0, body := [],
             isEncrypted := false } ∧ (2 ^ 32 : Nat) ≠ 0 := by
  constructor
  · decide
  · decide

/-- C2 witness: both amended round-trips at concrete inputs. -/
theorem claim_C2_witness :
    MTProtoCodec.decode (MTProtoCodec.encode 5 4294967296 [9] 7) =
      some { authKeyId := 5, messageId := 4294967296,
             messageLength := (([9] : List Nat).length : Int), body := [9],
             isEncrypted := decide ((5 : Nat) ≠ 0) } ∧
    MTProtoCodec.parseInnerMessage (MTProtoCodec.encodeInnerMessage 1 2 3 4 5 [6] 7) =
      .ok { salt := 1, sessionId := 2, messageId := 3, seqNo := 4,
            messageLength := (4 : Int) + ([6] : List Nat).length, ctor := 5,
            ctorName := MTProtoCodec.constructorName 5, data := [6] } :=
  ⟨claim_C2_roundtrip_amended.1 5 4294967296 [9] 7 (by norm_num) (by norm_num)
      (by norm_num) (by norm_num),
   claim_C2_roundtrip_amended.2 1 2 3 4 5 [6] 7 (by norm_num) (by norm_num) (by norm_num)
      (by norm_num) (by norm_num) (by norm_num) (by norm_num) (by norm_num) (by norm_num)⟩

/-- C3 (amended): on a frame of at least 20 bytes, `decode` rejects (as the
caught-error value `null`) exactly when the stated 32-bit length is negative
or exceeds `data.length - 16` — not the 20-byte header as claimed — and
otherwise succeeds with a body that is the `slice`-clamped
`(data.drop 20).take length` prefix, which is shorter than the stated length
whenever that length lies in `(data.length - 20, data.length - 16]`. -/
theorem claim_C3_length_validation_amended :
    ∀ data : List Nat, 20 ≤ data.length →
      ((MTProto.readI32 data 16 < 0 ∨
          (data.length : Int) - 16 < MTProto.readI32 data 16) →
        MTProtoCodec.decode data = none) ∧
      (0 ≤ MTProto.readI32 data 16 →
        MTProto.readI32 data 16 ≤ (data.length : Int) - 16 →
        MTProtoCodec.decode data =
          some { authKeyId := MTProto.readU64 data 0, messageId := MTProto.readU64 data 8,
                 messageLength := MTProto.readI32 data 16,
                 body := (data.drop 20).take (MTProto.readI32 data 16).toNat,
                 isEncrypted := decide (MTProto.readU64 data 0 ≠ 0) }) := by
  intro data h20
  constructor
  · intro hbad
    unfold MTProtoCodec.decode MTProtoCodec.decodeAux
    rw [if_neg (by omega)]
    rw [if_pos (by rcases hbad with h | h
                   · exact Or.inr h
                   · exact Or.inl h)]
    rfl
  · intro hge hle
    unfold MTProtoCodec.decode MTProtoCodec.decodeAux
    rw [if_neg (by omega)]
    rw [if_neg (by push_neg
                   exact ⟨by omega, by omega⟩)]
    rw [MTProtoCodec.jsSlice_drop_take data (MTProto.readI32 data 16) h20 hge]
    rfl

/-- C3 counterexample: a 24-byte frame whose length field says 8 while only
4 body bytes remain after the 20-byte header. The source checks the length
against `data.length - 16`, so 8 passes, and the clamping `slice` returns a
4-byte body, shorter than the stated length — `decode` neither fails nor
upholds the body-length bound the claim states. -/
theorem claim_C3_counterexample :
    MTProtoCodec.decode (List.replicate 16 0 ++ [8, 0, 0, 0] ++ [1, 2, 3, 4]) =
      some { authKeyId := 0, messageId := 0, messageLength := 8, body := [1, 2, 3, 4],
             isEncrypted := false } ∧
    (([1, 2, 3, 4] : List Nat).length : Int) < 8 := by
  constructor
  · decide
  · decide

/-- C3 witness: the amended statement at a concrete 24-byte frame with
length field 5 (≤ 24 − 16): decode succeeds with the clamped 4-byte body. -/
theorem claim_C3_witness :
    MTProtoCodec.decode (List.replicate 16 0 ++ [5, 0, 0, 0] ++ [1, 2, 3, 4]) =
      some { authKeyId :=
               MTProto.readU64 (List.replicate 16 0 ++ [5, 0, 0, 0] ++ [1, 2, 3, 4]) 0,
             messageId :=
               MTProto.readU64 (List.replicate 16 0 ++ [5, 0, 0, 0] ++ [1, 2, 3, 4]) 8,
             messageLength :=
               MTProto.readI32 (List.replicate 16 0 ++ [5, 0, 0, 0] ++ [1, 2, 3, 4]) 16,
             body := (((List.replicate 16 0 ++ [5, 0, 0, 0] ++ [1, 2, 3, 4]) : List Nat).drop
                 20).take
                 (MTProto.readI32 (List.replicate 16 0 ++ [5, 0, 0, 0] ++ [1, 2, 3, 4])
                     16).toNat,
             isEncrypted :=
               decide
                 (MTProto.readU64 (List.replicate 16 0 ++ [5, 0, 0, 0] ++ [1, 2, 3, 4]) 0 ≠
                   0) } :=
  (claim_C3_length_validation_amended (List.replicate 16 0 ++ [5, 0, 0, 0] ++ [1, 2, 3, 4])
      (by decide)).2 (by decide) (by decide)

/-- C4 (amended): for any input shorter than 20 bytes the decode body does
raise the `Message too short` parse failure and no partial `OuterMessage` is
produced — but `decode` catches the failure and returns `null` (here `none`)
instead of letting the typed error propagate. -/
theorem claim_C4_truncated_frame_amended :
    ∀ data : List Nat, data.length < 20 →
      MTProtoCodec.decodeAux data = .error "Message too short" ∧
      MTProtoCodec.decode data = none := by
  intro data h
  refine ⟨?_, ?_⟩
  · unfold MTProtoCodec.decodeAux
    rw [if_pos h]
  · unfold MTProtoCodec.decode MTProtoCodec.decodeAux
    rw [if_pos h]
    rfl

/-- C4 counterexample: on the claim's own 10-byte input the internal
`Message too short` error is caught by `decode`, which returns the default
value `null` (`none`) — contradicting the claim that `decode` never catches
the failure and never silently returns a default in its place. -/
theorem claim_C4_counterexample :
    MTProtoCodec.decodeAux (List.replicate 10 0) = .error "Message too short" ∧
    MTProtoCodec.decode (List.replicate 10 0) = none := by
  constructor
  · rfl
  · rfl

/-- C4 witness: the amended statement at a concrete 5-byte input. -/
theorem claim_C4_witness :
    MTProtoCodec.decodeAux (List.replicate 5 0) = .error "Message too short" ∧
    MTProtoCodec.decode (List.replicate 5 0) = none :=
  claim_C4_truncated_frame_amended (List.replicate 5 0) (by decide)

/-- C10 (confirmed): with the count word readable, a zero count makes
`readVector` return the empty element list having consumed exactly the four
count bytes, for any element type including unsupported ones; and the
unknown-vector-type failure can only arise when the decoded count is at
least 1. -/
theorem claim_C10_empty_vector :
    ∀ (data : List Nat) (off : Nat) (type : String), off + 4 ≤ data.length →
      (MTProto.readI32 data off = 0 →
        DataReader.readVector data off type = .ok ([], off + 4)) ∧
      (DataReader.readVector data off type = .error ("Unknown vector type: " ++ type) →
        1 ≤ MTProto.readI32 data off) := by
  intro data off type hb
  unfold DataReader.readVector
  rw [if_pos hb]
  constructor
  · intro h0
    rw [h0]
    rfl
  · intro herr
    by_contra hlt
    push_neg at hlt
    have h0 : (MTProto.readI32 data off).toNat = 0 := by omega
    rw [h0] at herr
    exact absurd herr (by simp [DataReader.readVectorLoop])

/-- C10 witness: a zero count with the unsupported element type `float`
yields the empty vector and a cursor advanced by exactly 4. -/
theorem claim_C10_witness :
    DataReader.readVector [0, 0, 0, 0] 0 "float" = .ok ([], 0 + 4) :=
  (claim_C10_empty_vector [0, 0, 0, 0] 0 "float" (by decide)).1 (by decide)

namespace MTProtoCodec

open MTProto

lemma validate_ratio (m t : Nat) :
    ((m * 2 ^ 32 : Nat) : ℚ) / 2 ^ 32 - ((1000 * t : Nat) : ℚ) / 1000 = (m : ℚ) - t := by
  push_cast
  field_simp
  ring

end MTProtoCodec

/-- C8 (confirmed): with the receiver clock at exactly `t` whole seconds
(`Date.now() = 1000 t`) and a message id encoding timestamp `t ∓ 300`
(`messageId / 2^32 = t ∓ 300`), `validateMessage` accepts, while timestamps
`t ∓ 301` are rejected. (At these integral boundary inputs the JS floating
point computation is exact, so the rational model coincides with it.) -/
theorem claim_C8_freshness_boundary (t : Nat) (ht : 300 < t) :
    MTProtoCodec.validateMessage ((t - 300) * 2 ^ 32) true (1000 * t) = true ∧
    MTProtoCodec.validateMessage ((t - 301) * 2 ^ 32) true (1000 * t) = false ∧
    MTProtoCodec.validateMessage ((t + 300) * 2 ^ 32) true (1000 * t) = true ∧
    MTProtoCodec.validateMessage ((t + 301) * 2 ^ 32) true (1000 * t) = false := by
  have h232 : (2 : Nat) ^ 32 = 4294967296 := by norm_num
  refine ⟨?_, ?_, ?_, ?_⟩
  · simp only [MTProtoCodec.validateMessage]
    rw [if_neg (by push_neg; exact ⟨by simp only [h232]; omega, by simp⟩)]
    have habs : |(((t - 300) * 2 ^ 32 : Nat) : ℚ) / 2 ^ 32 -
        ((1000 * t : Nat) : ℚ) / 1000| = 300 := by
      rw [MTProtoCodec.validate_ratio,
        show (((t - 300 : Nat)) : ℚ) - (t : ℚ) = -300 by rw [Nat.cast_sub (by omega)]; ring,
        abs_neg, abs_of_nonneg (by norm_num)]
    rw [habs]
    norm_num
  · by_cases hm : (t - 301) * 2 ^ 32 = 0
    · simp only [MTProtoCodec.validateMessage]
      rw [if_pos (Or.inl hm)]
    · simp only [MTProtoCodec.validateMessage]
      rw [if_neg (by push_neg; exact ⟨hm, by simp⟩)]
      have h301 : 301 ≤ t := by
        by_contra hc
        exact hm (by have : t - 301 = 0 := by omega
                     rw [this, Nat.zero_mul])
      have habs : |(((t - 301) * 2 ^ 32 : Nat) : ℚ) / 2 ^ 32 -
          ((1000 * t : Nat) : ℚ) / 1000| = 301 := by
        rw [MTProtoCodec.validate_ratio,
          show (((t - 301 : Nat)) : ℚ) - (t : ℚ) = -301 by rw [Nat.cast_sub h301]; ring,
          abs_neg, abs_of_nonneg (by norm_num)]
      rw [habs]
      norm_num
  · simp only [MTProtoCodec.validateMessage]
    rw [if_neg (by push_neg; exact ⟨by simp only [h232]; omega, by simp⟩)]
    have habs : |(((t + 300) * 2 ^ 32 : Nat) : ℚ) / 2 ^ 32 -
        ((1000 * t : Nat) : ℚ) / 1000| = 300 := by
      rw [MTProtoCodec.validate_ratio,
        show (((t + 300 : Nat)) : ℚ) - (t : ℚ) = 300 by push_cast; ring,
        abs_of_nonneg (by norm_num)]
    rw [habs]
    norm_num
  · simp only [MTProtoCodec.validateMessage]
    rw [if_neg (by push_neg; exact ⟨by simp only [h232]; omega, by simp⟩)]
    have habs : |(((t + 301) * 2 ^ 32 : Nat) : ℚ) / 2 ^ 32 -
        ((1000 * t : Nat) : ℚ) / 1000| = 301 := by
      rw [MTProtoCodec.validate_ratio,
        show (((t + 301 : Nat)) : ℚ) - (t : ℚ) = 301 by push_cast; ring,
        abs_of_nonneg (by norm_num)]
    rw [habs]
    norm_num

/-- C8 witness: the boundary behaviour at clock second 1000. -/
theorem claim_C8_witness :
    MTProtoCodec.validateMessage ((1000 - 300) * 2 ^ 32) true (1000 * 1000) = true ∧
    MTProtoCodec.validateMessage ((1000 - 301) * 2 ^ 32) true (1000 * 1000) = false ∧
    MTProtoCodec.validateMessage ((1000 + 300) * 2 ^ 32) true (1000 * 1000) = true ∧
    MTProtoCodec.validateMessage ((1000 + 301) * 2 ^ 32) true (1000 * 1000) = false :=
  claim_C8_freshness_boundary 1000 (by norm_num)

namespace CryptoModule

open MTProto

lemma length_xorBytes (a b : List Nat) : (xorBytes a b).length = max a.length b.length := by
  simp [xorBytes]

lemma getD_xorBytes_lt (a b : List Nat) (i : Nat) (h : i < max a.length b.length) :
    (xorBytes a b).getD i 0 = a.getD i 0 ^^^ b.getD i 0 := by
  unfold xorBytes
  rw [List.getD_eq_getElem _ 0 (by simpa using h)]
  simp

lemma xorBytes_cancel (a b : List Nat) (h : a.length = b.length) :
    xorBytes (xorBytes a b) b = a := by
  apply List.ext_getElem (by simp [length_xorBytes, h])
  intro i h1 h2
  rw [← List.getD_eq_getElem _ 0 h1, ← List.getD_eq_getElem _ 0 h2,
    getD_xorBytes_lt _ _ _ (by simp [length_xorBytes] at h1 ⊢; omega),
    getD_xorBytes_lt _ _ _ (by simp [length_xorBytes, h] at h2 ⊢; omega)]
  exact Nat.xor_cancel_right _ _

/-- The 16-byte chunking performed by the `for (i += 16)` loops. -/
def chunks16 (l : List Nat) : List (List Nat) :=
  if h : l = [] then [] else l.take 16 :: chunks16 (l.drop 16)
  termination_by l.length
  decreasing_by
    simp only [List.length_drop]
    have := List.length_pos.mpr h
    omega

/-- The encryption chain on explicit 16-byte blocks: each output block is
`AES(plain XOR prevCipher) XOR prevPlain` and becomes the next `prevCipher`,
the raw plain block the next `prevPlain`. -/
def igeEncBlocks (E : List Nat → List Nat) : List Nat → List Nat → List (List Nat) → List (List Nat)
  | _, _, [] => []
  | prevC, prevP, b :: bs =>
    let c := xorBytes (E (xorBytes b prevC)) prevP
    c :: igeEncBlocks E c b bs

/-- The decryption chain on blocks: the raw cipher block becomes the next
`prevCipher`, the produced plain block the next `prevPlain`. -/
def igeDecBlocks (D : List Nat → List Nat) : List Nat → List Nat → List (List Nat) → List (List Nat)
  | _, _, [] => []
  | prevC, prevP, c :: cs =>
    let p := xorBytes (D (xorBytes c prevP)) prevC
    p :: igeDecBlocks D c p cs

lemma igeDecBlocks_igeEncBlocks (E D : List Nat → List Nat)
    (hED : ∀ b, b.length = 16 → D (E b) = b)
    (hE : ∀ b, b.length = 16 → (E b).length = 16) :
    ∀ (bs : List (List Nat)) (prevC prevP : List Nat),
      (∀ b ∈ bs, b.length = 16) → prevC.length = 16 → prevP.length = 16 →
      igeDecBlocks D prevC prevP (igeEncBlocks E prevC prevP bs) = bs := by
  intro bs
  induction bs with
  | nil => intro _ _ _ _ _; rfl
  | cons b bs ih =>
    intro prevC prevP hall hC hP
    have hb : b.length = 16 := hall b (by simp)
    have hxb : (xorBytes b prevC).length = 16 := by
      simp [length_xorBytes, hb, hC]
    have hc : (xorBytes (E (xorBytes b prevC)) prevP).length = 16 := by
      simp [length_xorBytes, hE _ hxb, hP]
    simp only [igeEncBlocks, igeDecBlocks]
    rw [xorBytes_cancel (E (xorBytes b prevC)) prevP (by rw [hE _ hxb, hP]),
      hED _ hxb, xorBytes_cancel b prevC (by rw [hb, hC]),
      ih (xorBytes (E (xorBytes b prevC)) prevP) b
        (fun x hx => hall x (by simp [hx])) hc hb]

lemma igeEncBlocks_all16 (E : List Nat → List Nat)
    (hE : ∀ b, b.length = 16 → (E b).length = 16) :
    ∀ (bs : List (List Nat)) (prevC prevP : List Nat),
      (∀ b ∈ bs, b.length = 16) → prevC.length = 16 → prevP.length = 16 →
      ∀ c ∈ igeEncBlocks E prevC prevP bs, c.length = 16 := by
  intro bs
  induction bs with
  | nil => intro _ _ _ _ _ c hc; simp [igeEncBlocks] at hc
  | cons b bs ih =>
    intro prevC prevP hall hC hP c hc
    have hb : b.length = 16 := hall b (by simp)
    have hxb : (xorBytes b prevC).length = 16 := by simp [length_xorBytes, hb, hC]
    have hhd : (xorBytes (E (xorBytes b prevC)) prevP).length = 16 := by
      simp [length_xorBytes, hE _ hxb, hP]
    simp only [igeEncBlocks] at hc
    rw [List.mem_cons] at hc
    rcases hc with hc | hc
    · rw [hc]; exact hhd
    · exact ih _ b (fun x hx => hall x (by simp [hx])) hhd hb c hc

lemma igeEncBlocks_length (E : List Nat → List Nat) :
    ∀ (bs : List (List Nat)) (prevC prevP : List Nat),
      (igeEncBlocks E prevC prevP bs).length = bs.length := by
  intro bs
  induction bs with
  | nil => intro _ _; rfl
  | cons b bs ih => intro prevC prevP; simp only [igeEncBlocks, List.length_cons, ih]


lemma chunks16_nil : chunks16 [] = [] := by
  rw [chunks16]
  simp

lemma chunks16_cons (l : List Nat) (h : l ≠ []) :
    chunks16 l = l.take 16 :: chunks16 (l.drop 16) := by
  rw [chunks16, dif_neg h]

lemma chunks16_all16_bounded :
    ∀ (n : Nat) (l : List Nat), l.length ≤ n → 16 ∣ l.length →
      ∀ c ∈ chunks16 l, c.length = 16 := by
  intro n
  induction n with
  | zero =>
    intro l hl _ c hc
    have hnil : l = [] := by
      cases l with
      | nil => rfl
      | cons x xs => simp at hl
    rw [hnil, chunks16_nil] at hc
    simp at hc
  | succ n ih =>
    intro l hl hd c hc
    by_cases h : l = []
    · rw [h, chunks16_nil] at hc
      simp at hc
    · have h16 : 16 ≤ l.length := Nat.le_of_dvd (List.length_pos.mpr h) hd
      rw [chunks16_cons l h] at hc
      rw [List.mem_cons] at hc
      rcases hc with hc | hc
      · rw [hc]
        simp [List.length_take]
        omega
      · exact ih (l.drop 16) (by simp [List.length_drop]; omega)
          (by simp [List.length_drop]; omega) c hc

lemma chunks16_all16 (l : List Nat) (hd : 16 ∣ l.length) :
    ∀ c ∈ chunks16 l, c.length = 16 :=
  chunks16_all16_bounded l.length l le_rfl hd

lemma flatten_chunks16_bounded :
    ∀ (n : Nat) (l : List Nat), l.length ≤ n → (chunks16 l).flatten = l := by
  intro n
  induction n with
  | zero =>
    intro l hl
    have hnil : l = [] := by
      cases l with
      | nil => rfl
      | cons x xs => simp at hl
    rw [hnil, chunks16_nil]
    rfl
  | succ n ih =>
    intro l hl
    by_cases h : l = []
    · rw [h, chunks16_nil]
      rfl
    · rw [chunks16_cons l h]
      have hpos := List.length_pos.mpr h
      simp only [List.flatten_cons]
      rw [ih (l.drop 16) (by simp [List.length_drop]; omega)]
      exact List.take_append_drop 16 l

lemma flatten_chunks16 (l : List Nat) : (chunks16 l).flatten = l :=
  flatten_chunks16_bounded l.length l le_rfl

lemma chunks16_flatten (bs : List (List Nat)) (h : ∀ b ∈ bs, b.length = 16) :
    chunks16 bs.flatten = bs := by
  induction bs with
  | nil => exact chunks16_nil
  | cons b bs ih =>
    have hb : b.length = 16 := h b (by simp)
    have hne : (b ++ bs.flatten) ≠ [] := by
      intro hcon
      have : b = [] := by
        cases b with
        | nil => rfl
        | cons x xs => simp at hcon
      rw [this] at hb
      simp at hb
    simp only [List.flatten_cons]
    rw [chunks16_cons _ hne,
      show (b ++ bs.flatten).take 16 = b by
        rw [← hb, List.take_left],
      show (b ++ bs.flatten).drop 16 = bs.flatten by
        rw [← hb, List.drop_left],
      ih (fun x hx => h x (by simp [hx]))]

lemma flatten_all16_length (bs : List (List Nat)) (h : ∀ b ∈ bs, b.length = 16) :
    bs.flatten.length = 16 * bs.length := by
  induction bs with
  | nil => rfl
  | cons b bs ih =>
    simp only [List.flatten_cons, List.length_append, List.length_cons,
      h b (by simp), ih (fun x hx => h x (by simp [hx]))]
    ring

lemma chunks16_mul_length_bounded :
    ∀ (n : Nat) (l : List Nat), l.length ≤ n → 16 ∣ l.length →
      16 * (chunks16 l).length = l.length := by
  intro n
  induction n with
  | zero =>
    intro l hl _
    have hnil : l = [] := by
      cases l with
      | nil => rfl
      | cons x xs => simp at hl
    rw [hnil, chunks16_nil]
    rfl
  | succ n ih =>
    intro l hl hd
    by_cases h : l = []
    · rw [h, chunks16_nil]
      rfl
    · have h16 : 16 ≤ l.length := Nat.le_of_dvd (List.length_pos.mpr h) hd
      rw [chunks16_cons l h]
      simp only [List.length_cons]
      have := ih (l.drop 16) (by simp [List.length_drop]; omega)
        (by simp [List.length_drop]; omega)
      simp only [List.length_drop] at this
      omega

lemma take_len_append (l1 l2 : List Nat) (k : Nat) (h : l1.length = k) :
    (l1 ++ l2).take k = l1 := by
  subst h
  simpa using List.take_left l1 l2

lemma igeEncryptGo_eq (E : List Nat → List Nat)
    (hE : ∀ b, b.length = 16 → (E b).length = 16) :
    ∀ (n : Nat) (data enc prevC prevP : List Nat) (i : Nat),
      data.length - i ≤ n → enc.length = data.length → i ≤ data.length →
      16 ∣ data.length - i → prevC.length = 16 → prevP.length = 16 →
      igeEncryptGo E data i prevC prevP enc =
        .ok (enc.take i ++ (igeEncBlocks E prevC prevP (chunks16 (data.drop i))).flatten) := by
  intro n
  induction n with
  | zero =>
    intro data enc prevC prevP i hn hlen hi hdvd hC hP
    rw [igeEncryptGo, dif_neg (by omega)]
    rw [List.drop_eq_nil_iff.mpr (by omega), chunks16_nil]
    simp only [igeEncBlocks, List.flatten_nil, List.append_nil]
    rw [List.take_of_length_le (by omega)]
  | succ n ih =>
    intro data enc prevC prevP i hn hlen hi hdvd hC hP
    by_cases hil : i < data.length
    · have h16 : 16 ≤ data.length - i := Nat.le_of_dvd (by omega) hdvd
      have hpbl : ((data.drop i).take 16).length = 16 := by
        simp [List.length_take, List.length_drop]
        omega
      have hxb : (xorBytes ((data.drop i).take 16) prevC).length = 16 := by
        simp [length_xorBytes, hpbl, hC]
      have hrbl : (xorBytes (E (xorBytes ((data.drop i).take 16) prevC)) prevP).length = 16 := by
        simp [length_xorBytes, hE _ hxb, hP]
      rw [igeEncryptGo, dif_pos hil]
      have hset : jsSet enc (xorBytes (E (xorBytes ((data.drop i).take 16) prevC)) prevP) i =
          some (enc.take i ++ xorBytes (E (xorBytes ((data.drop i).take 16) prevC)) prevP ++
            enc.drop (i + 16)) := by
        unfold jsSet
        rw [hrbl, if_pos (by omega)]
      simp only [hset]
      rw [ih data
        (enc.take i ++ xorBytes (E (xorBytes ((data.drop i).take 16) prevC)) prevP ++
          enc.drop (i + 16))
        (xorBytes (E (xorBytes ((data.drop i).take 16) prevC)) prevP)
        ((data.drop i).take 16) (i + 16) (by omega)
        (by simp [List.length_append, hrbl, List.length_take, List.length_drop]; omega)
        (by omega) (by omega) hrbl hpbl]
      congr 1
      rw [chunks16_cons (data.drop i)
        (by intro hcon; rw [List.drop_eq_nil_iff] at hcon; omega)]
      rw [List.drop_drop]
      simp only [igeEncBlocks, List.flatten_cons]
      have htake : (enc.take i ++ xorBytes (E (xorBytes ((data.drop i).take 16) prevC)) prevP ++
          enc.drop (i + 16)).take (i + 16) =
          enc.take i ++ xorBytes (E (xorBytes ((data.drop i).take 16) prevC)) prevP := by
        rw [List.append_assoc,
          show i + 16 = (enc.take i).length + 16 by simp [List.length_take]; omega,
          List.take_append]
        congr 1
        exact take_len_append _ _ 16 hrbl
      rw [htake, List.append_assoc]
    · rw [igeEncryptGo, dif_neg hil]
      rw [List.drop_eq_nil_iff.mpr (by omega), chunks16_nil]
      simp only [igeEncBlocks, List.flatten_nil, List.append_nil]
      rw [List.take_of_length_le (by omega)]

lemma igeDecryptGo_eq (D : List Nat → List Nat)
    (hD : ∀ b, b.length = 16 → (D b).length = 16) :
    ∀ (n : Nat) (data dec prevC prevP : List Nat) (i : Nat),
      data.length - i ≤ n → dec.length = data.length → i ≤ data.length →
      16 ∣ data.length - i → prevC.length = 16 → prevP.length = 16 →
      igeDecryptGo D data i prevC prevP dec =
        .ok (dec.take i ++ (igeDecBlocks D prevC prevP (chunks16 (data.drop i))).flatten) := by
  intro n
  induction n with
  | zero =>
    intro data dec prevC prevP i hn hlen hi hdvd hC hP
    rw [igeDecryptGo, dif_neg (by omega)]
    rw [List.drop_eq_nil_iff.mpr (by omega), chunks16_nil]
    simp only [igeDecBlocks, List.flatten_nil, List.append_nil]
    rw [List.take_of_length_le (by omega)]
  | succ n ih =>
    intro data dec prevC prevP i hn hlen hi hdvd hC hP
    by_cases hil : i < data.length
    · have h16 : 16 ≤ data.length - i := Nat.le_of_dvd (by omega) hdvd
      have hcbl : ((data.drop i).take 16).length = 16 := by
        simp [List.length_take, List.length_drop]
        omega
      have hxb : (xorBytes ((data.drop i).take 16) prevP).length = 16 := by
        simp [length_xorBytes, hcbl, hP]
      have hrbl : (xorBytes (D (xorBytes ((data.drop i).take 16) prevP)) prevC).length = 16 := by
        simp [length_xorBytes, hD _ hxb, hC]
      rw [igeDecryptGo, dif_pos hil]
      have hset : jsSet dec (xorBytes (D (xorBytes ((data.drop i).take 16) prevP)) prevC) i =
          some (dec.take i ++ xorBytes (D (xorBytes ((data.drop i).take 16) prevP)) prevC ++
            dec.drop (i + 16)) := by
        unfold jsSet
        rw [hrbl, if_pos (by omega)]
      simp only [hset]
      rw [ih data
        (dec.take i ++ xorBytes (D (xorBytes ((data.drop i).take 16) prevP)) prevC ++
          dec.drop (i + 16))
        ((data.drop i).take 16)
        (xorBytes (D (xorBytes ((data.drop i).take 16) prevP)) prevC) (i + 16) (by omega)
        (by simp [List.length_append, hrbl, List.length_take, List.length_drop]; omega)
        (by omega) (by omega) hcbl hrbl]
      congr 1
      rw [chunks16_cons (data.drop i)
        (by intro hcon; rw [List.drop_eq_nil_iff] at hcon; omega)]
      rw [List.drop_drop]
      simp only [igeDecBlocks, List.flatten_cons]
      have htake : (dec.take i ++ xorBytes (D (xorBytes ((data.drop i).take 16) prevP)) prevC ++
          dec.drop (i + 16)).take (i + 16) =
          dec.take i ++ xorBytes (D (xorBytes ((data.drop i).take 16) prevP)) prevC := by
        rw [List.append_assoc,
          show i + 16 = (dec.take i).length + 16 by simp [List.length_take]; omega,
          List.take_append]
        congr 1
        exact take_len_append _ _ 16 hrbl
      rw [htake, List.append_assoc]
    · rw [igeDecryptGo, dif_neg hil]
      rw [List.drop_eq_nil_iff.mpr (by omega), chunks16_nil]
      simp only [igeDecBlocks, List.flatten_nil, List.append_nil]
      rw [List.take_of_length_le (by omega)]

lemma igeEncryptGo_misaligned (E : List Nat → List Nat)
    (hE : ∀ b, b.length = 16 → (E b).length = 16) :
    ∀ (n : Nat) (data enc prevC prevP : List Nat) (i : Nat),
      data.length - i ≤ n → enc.length = data.length → i ≤ data.length →
      ¬ 16 ∣ data.length - i → prevC.length = 16 → prevP.length = 16 →
      igeEncryptGo E data i prevC prevP enc = .error "RangeError" := by
  intro n
  induction n with
  | zero =>
    intro data enc prevC prevP i hn hlen hi hdvd hC hP
    exact absurd (show 16 ∣ data.length - i by
      rw [show data.length - i = 0 by omega]
      exact Dvd.intro 0 rfl) hdvd
  | succ n ih =>
    intro data enc prevC prevP i hn hlen hi hdvd hC hP
    have hil : i < data.length := by
      rcases Nat.lt_or_ge i data.length with h | h
      · exact h
      · exact absurd (show 16 ∣ data.length - i by
          rw [show data.length - i = 0 by omega]
          exact Dvd.intro 0 rfl) hdvd
    have hpbl : ((data.drop i).take 16).length = min 16 (data.length - i) := by
      simp [List.length_take, List.length_drop]
    have hxb : (xorBytes ((data.drop i).take 16) prevC).length = 16 := by
      simp [length_xorBytes, hpbl, hC]
    have hrbl : (xorBytes (E (xorBytes ((data.drop i).take 16) prevC)) prevP).length = 16 := by
      simp [length_xorBytes, hE _ hxb, hP]
    rw [igeEncryptGo, dif_pos hil]
    rcases Nat.lt_or_ge (data.length - i) 16 with hshort | hlong
    · have hset : jsSet enc (xorBytes (E (xorBytes ((data.drop i).take 16) prevC)) prevP) i =
          none := by
        unfold jsSet
        rw [hrbl, if_neg (by omega)]
      simp only [hset]
    · have hset : jsSet enc (xorBytes (E (xorBytes ((data.drop i).take 16) prevC)) prevP) i =
          some (enc.take i ++ xorBytes (E (xorBytes ((data.drop i).take 16) prevC)) prevP ++
            enc.drop (i + 16)) := by
        unfold jsSet
        rw [hrbl, if_pos (by omega)]
      simp only [hset]
      exact ih data
        (enc.take i ++ xorBytes (E (xorBytes ((data.drop i).take 16) prevC)) prevP ++
          enc.drop (i + 16))
        (xorBytes (E (xorBytes ((data.drop i).take 16) prevC)) prevP)
        ((data.drop i).take 16) (i + 16) (by omega)
        (by simp [List.length_append, hrbl, List.length_take, List.length_drop]; omega)
        (by omega) (by omega) hrbl (by omega)

lemma igeDecryptGo_misaligned (D : List Nat → List Nat)
    (hD : ∀ b, b.length = 16 → (D b).length = 16) :
    ∀ (n : Nat) (data dec prevC prevP : List Nat) (i : Nat),
      data.length - i ≤ n → dec.length = data.length → i ≤ data.length →
      ¬ 16 ∣ data.length - i → prevC.length = 16 → prevP.length = 16 →
      igeDecryptGo D data i prevC prevP dec = .error "RangeError" := by
  intro n
  induction n with
  | zero =>
    intro data dec prevC prevP i hn hlen hi hdvd hC hP
    exact absurd (show 16 ∣ data.length - i by
      rw [show data.length - i = 0 by omega]
      exact Dvd.intro 0 rfl) hdvd
  | succ n ih =>
    intro data dec prevC prevP i hn hlen hi hdvd hC hP
    have hil : i < data.length := by
      rcases Nat.lt_or_ge i data.length with h | h
      · exact h
      · exact absurd (show 16 ∣ data.length - i by
          rw [show data.length - i = 0 by omega]
          exact Dvd.intro 0 rfl) hdvd
    have hcbl : ((data.drop i).take 16).length = min 16 (data.length - i) := by
      simp [List.length_take, List.length_drop]
    have hxb : (xorBytes ((data.drop i).take 16) prevP).length = 16 := by
      simp [length_xorBytes, hcbl, hP]
    have hrbl : (xorBytes (D (xorBytes ((data.drop i).take 16) prevP)) prevC).length = 16 := by
      simp [length_xorBytes, hD _ hxb, hC]
    rw [igeDecryptGo, dif_pos hil]
    rcases Nat.lt_or_ge (data.length - i) 16 with hshort | hlong
    · have hset : jsSet dec (xorBytes (D (xorBytes ((data.drop i).take 16) prevP)) prevC) i =
          none := by
        unfold jsSet
        rw [hrbl, if_neg (by omega)]
      simp only [hset]
    · have hset : jsSet dec (xorBytes (D (xorBytes ((data.drop i).take 16) prevP)) prevC) i =
          some (dec.take i ++ xorBytes (D (xorBytes ((data.drop i).take 16) prevP)) prevC ++
            dec.drop (i + 16)) := by
        unfold jsSet
        rw [hrbl, if_pos (by omega)]
      simp only [hset]
      exact ih data
        (dec.take i ++ xorBytes (D (xorBytes ((data.drop i).take 16) prevP)) prevC ++
          dec.drop (i + 16))
        ((data.drop i).take 16)
        (xorBytes (D (xorBytes ((data.drop i).take 16) prevP)) prevC) (i + 16) (by omega)
        (by simp [List.length_append, hrbl, List.length_take, List.length_drop]; omega)
        (by omega) (by omega) (by omega) hrbl

lemma jsSlice_iv1_length (iv : List Nat) (h : iv.length = 32) :
    (jsSlice iv 0 16).length = 16 := by
  unfold jsSlice
  rw [MTProtoCodec.jsIdx_nonneg _ _ (by omega), MTProtoCodec.jsIdx_nonneg _ _ (by omega)]
  simp [List.length_take, List.length_drop, h]

lemma jsSlice_iv2_length (iv : List Nat) (h : iv.length = 32) :
    (jsSlice iv 16 32).length = 16 := by
  unfold jsSlice
  rw [MTProtoCodec.jsIdx_nonneg _ _ (by omega), MTProtoCodec.jsIdx_nonneg _ _ (by omega)]
  simp [List.length_take, List.length_drop, h]

end CryptoModule

open MTProto in
/-- C1 (confirmed): for every plaintext whose length is a multiple of 16,
every 32-byte key and 32-byte IV pair, with the per-block AES primitives
treated as mutually inverse length-preserving permutations of 16-byte
blocks, `decryptAES_IGE` inverts `encryptAES_IGE`. -/
theorem claim_C1_ige_roundtrip (E D : List Nat → List Nat → List Nat) (p k iv : List Nat)
    (hk : k.length = 32) (hiv : iv.length = 32) (hp : 16 ∣ p.length)
    (hED : ∀ b, b.length = 16 → D k (E k b) = b)
    (hE : ∀ b, b.length = 16 → (E k b).length = 16)
    (hD : ∀ b, b.length = 16 → (D k b).length = 16) :
    ∃ c, CryptoModule.encryptAES_IGE E p k iv = .ok c ∧
      CryptoModule.decryptAES_IGE D c k iv = .ok p := by
  have hiv1 := CryptoModule.jsSlice_iv1_length iv hiv
  have hiv2 := CryptoModule.jsSlice_iv2_length iv hiv
  have hchunks := CryptoModule.chunks16_all16 p hp
  have hBall : ∀ c ∈ CryptoModule.igeEncBlocks (E k) (jsSlice iv 0 16) (jsSlice iv 16 32)
      (CryptoModule.chunks16 p), c.length = 16 :=
    CryptoModule.igeEncBlocks_all16 (E k) hE _ _ _ hchunks hiv1 hiv2
  set C := (CryptoModule.igeEncBlocks (E k) (jsSlice iv 0 16) (jsSlice iv 16 32)
      (CryptoModule.chunks16 p)).flatten with hC
  have hClen : C.length = p.length := by
    rw [hC, CryptoModule.flatten_all16_length _ hBall, CryptoModule.igeEncBlocks_length]
    exact CryptoModule.chunks16_mul_length_bounded p.length p le_rfl hp
  have henc : CryptoModule.encryptAES_IGE E p k iv = .ok C := by
    unfold CryptoModule.encryptAES_IGE
    rw [CryptoModule.igeEncryptGo_eq (E k) hE p.length p (List.replicate p.length 0)
      (jsSlice iv 0 16) (jsSlice iv 16 32) 0 (by omega) (by simp) (by omega)
      (by simpa using hp) hiv1 hiv2]
    simp [hC]
  refine ⟨C, henc, ?_⟩
  unfold CryptoModule.decryptAES_IGE
  rw [CryptoModule.igeDecryptGo_eq (D k) hD C.length C (List.replicate C.length 0)
    (jsSlice iv 0 16) (jsSlice iv 16 32) 0 (by omega) (by simp) (by omega)
    (by simp only [Nat.sub_zero]; rw [hClen]; exact hp) hiv1 hiv2]
  simp only [List.take_zero, List.nil_append, List.drop_zero]
  rw [hC, CryptoModule.chunks16_flatten _ hBall,
    CryptoModule.igeDecBlocks_igeEncBlocks (E k) (D k) hED hE (CryptoModule.chunks16 p)
      (jsSlice iv 0 16) (jsSlice iv 16 32) hchunks hiv1 hiv2,
    CryptoModule.flatten_chunks16]

/-- C1 witness: the round-trip at a concrete one-block plaintext with the
identity block permutation. -/
theorem claim_C1_witness :
    ∃ c, CryptoModule.encryptAES_IGE (fun _ b => b) (List.replicate 16 7)
        (List.replicate 32 0) (List.replicate 32 0) = .ok c ∧
      CryptoModule.decryptAES_IGE (fun _ b => b) c (List.replicate 32 0)
        (List.replicate 32 0) = .ok (List.replicate 16 7) :=
  claim_C1_ige_roundtrip (fun _ b => b) (fun _ b => b) (List.replicate 16 7)
    (List.replicate 32 0) (List.replicate 32 0) (by decide) (by decide) (by decide)
    (fun _ _ => rfl) (fun _ hb => hb) (fun _ hb => hb)

open MTProto in
/-- C7 (amended): the IGE routines perform no block-alignment validation.
On any input whose length is not a multiple of 16 (with a 32-byte IV and
length-preserving block primitives) the trailing short block is zero-padded
inside `xorBytes` and the attempt to store the resulting full 16-byte block
past the end of the output array makes `Uint8Array.set` throw a generic
`RangeError` — not an `InvalidBlockAlignment` error — so no
ciphertext/plaintext is ever returned for misaligned input. -/
theorem claim_C7_misalignment_amended (E D : List Nat → List Nat → List Nat)
    (data key iv : List Nat) (hiv : iv.length = 32)
    (hE : ∀ b, b.length = 16 → (E key b).length = 16)
    (hD : ∀ b, b.length = 16 → (D key b).length = 16)
    (hmis : ¬ 16 ∣ data.length) :
    CryptoModule.encryptAES_IGE E data key iv = .error "RangeError" ∧
    CryptoModule.decryptAES_IGE D data key iv = .error "RangeError" := by
  constructor
  · unfold CryptoModule.encryptAES_IGE
    exact CryptoModule.igeEncryptGo_misaligned (E key) hE data.length data
      (List.replicate data.length 0) (jsSlice iv 0 16) (jsSlice iv 16 32) 0 (by omega)
      (by simp) (by omega) (by simpa using hmis)
      (CryptoModule.jsSlice_iv1_length iv hiv) (CryptoModule.jsSlice_iv2_length iv hiv)
  · unfold CryptoModule.decryptAES_IGE
    exact CryptoModule.igeDecryptGo_misaligned (D key) hD data.length data
      (List.replicate data.length 0) (jsSlice iv 0 16) (jsSlice iv 16 32) 0 (by omega)
      (by simp) (by omega) (by simpa using hmis)
      (CryptoModule.jsSlice_iv1_length iv hiv) (CryptoModule.jsSlice_iv2_length iv hiv)

open MTProto in
/-- C7 counterexample: on a concrete misaligned 8-byte input (identity block
primitives, 32-byte zero key and IV) both routines fail with the generic
`RangeError` of the out-of-bounds `set`, not with the `InvalidBlockAlignment`
error the claim requires — no such validation exists in the source. -/
theorem claim_C7_counterexample :
    CryptoModule.encryptAES_IGE (fun _ b => b) (List.replicate 8 0) (List.replicate 32 0)
        (List.replicate 32 0) = .error "RangeError" ∧
    CryptoModule.decryptAES_IGE (fun _ b => b) (List.replicate 8 0) (List.replicate 32 0)
        (List.replicate 32 0) = .error "RangeError" ∧
    ("RangeError" : String) ≠ "InvalidBlockAlignment" := by
  refine ⟨?_, ?_, by decide⟩
  · unfold CryptoModule.encryptAES_IGE
    exact CryptoModule.igeEncryptGo_misaligned (fun b => b) (fun _ hb => hb) 8
      (List.replicate 8 0) (List.replicate (List.replicate 8 0).length 0)
      (jsSlice (List.replicate 32 0) 0 16) (jsSlice (List.replicate 32 0) 16 32) 0
      (by decide) (by decide) (by decide) (by decide) (by decide) (by decide)
  · unfold CryptoModule.decryptAES_IGE
    exact CryptoModule.igeDecryptGo_misaligned (fun b => b) (fun _ hb => hb) 8
      (List.replicate 8 0) (List.replicate (List.replicate 8 0).length 0)
      (jsSlice (List.replicate 32 0) 0 16) (jsSlice (List.replicate 32 0) 16 32) 0
      (by decide) (by decide) (by decide) (by decide) (by decide) (by decide)

/-- C7 witness: the amended statement at a concrete misaligned 20-byte
input. -/
theorem claim_C7_witness :
    CryptoModule.encryptAES_IGE (fun _ b => b) (List.replicate 20 1) (List.replicate 32 0)
        (List.replicate 32 0) = .error "RangeError" ∧
    CryptoModule.decryptAES_IGE (fun _ b => b) (List.replicate 20 1) (List.replicate 32 0)
        (List.replicate 32 0) = .error "RangeError" :=
  claim_C7_misalignment_amended (fun _ b => b) (fun _ b => b) (List.replicate 20 1)
    (List.replicate 32 0) (List.replicate 32 0) (by decide) (fun _ hb => hb)
    (fun _ hb => hb) (by decide)

namespace AuthHandler

open MTProto

lemma find?_map_overwrite (k : String) (v : AuthSession) :
    ∀ (m : List (String × AuthSession)),
      (m.find? (fun kv => kv.1 = k)).isSome →
      (m.map (fun kv => if kv.1 = k then (k, v) else kv)).find? (fun kv => kv.1 = k) =
        some (k, v) := by
  intro m
  induction m with
  | nil => intro h; simp at h
  | cons kv m ih =>
    intro h
    by_cases hk : kv.1 = k
    · simp only [List.map_cons, if_pos hk]
      exact List.find?_cons_of_pos _ (by simp)
    · simp only [List.map_cons, if_neg hk]
      rw [List.find?_cons_of_neg _ (by simp [hk])]
      apply ih
      rw [List.find?_cons_of_neg _ (by simp [hk])] at h
      exact h

lemma find?_append_single (k : String) (v : AuthSession) :
    ∀ (m : List (String × AuthSession)),
      m.find? (fun kv => kv.1 = k) = none →
      (m ++ [(k, v)]).find? (fun kv => kv.1 = k) = some (k, v) := by
  intro m
  induction m with
  | nil =>
    intro _
    exact List.find?_cons_of_pos _ (by simp)
  | cons kv m ih =>
    intro h
    by_cases hk : kv.1 = k
    · rw [List.find?_cons_of_pos _ (by simp [hk])] at h
      simp at h
    · rw [List.find?_cons_of_neg _ (by simp [hk])] at h
      rw [List.cons_append, List.find?_cons_of_neg _ (by simp [hk])]
      exact ih h

lemma mapGet_mapSet (m : List (String × AuthSession)) (k : String) (v : AuthSession) :
    mapGet (mapSet m k v) k = some v := by
  unfold mapGet mapSet
  split
  case isTrue h =>
    rw [find?_map_overwrite k v m h]
    rfl
  case isFalse h =>
    rw [find?_append_single k v m (Option.not_isSome_iff_eq_none.mp h)]
    rfl

end AuthHandler

/-- C5 (amended): a session stored by `handleReqPq` is keyed by the hex of
its nonce and records the nonce/server-nonce pair; a step-2 request whose
nonce matches a stored session but whose server nonce differs is rejected
with the `Nonce mismatch` error and the session table is returned unchanged
(the stored record is not written); a step-2 request whose nonce matches no
stored session fails with `Session not found` — not with the
`NonceMismatchError` the claim asserts for every mismatched nonce — again
leaving the table unchanged. -/
theorem claim_C5_nonce_binding_amended :
    (∀ (sessions0 : List (String × AuthHandler.AuthSession))
        (body1 serverNonce1 : List Nat) (now : Nat),
      ∃ s, AuthHandler.mapGet ((AuthHandler.handleReqPq sessions0 body1 serverNonce1 now).2)
          (AuthHandler.bytesToHex (MTProto.jsSlice body1 4 20)) = some s ∧
        s.nonce = MTProto.jsSlice body1 4 20 ∧ s.serverNonce = serverNonce1) ∧
    (∀ (sessions : List (String × AuthHandler.AuthSession)) (body : List Nat)
        (dh : AuthHandler.DHParams) (encAns : List Nat) (r : AuthHandler.ReqDHParams)
        (s : AuthHandler.AuthSession),
      AuthHandler.parseReqDHParams body = some r →
      AuthHandler.mapGet sessions (AuthHandler.bytesToHex r.nonce) = some s →
      s.nonce = r.nonce → s.serverNonce ≠ r.serverNonce →
      AuthHandler.handleReqDHParams sessions body dh encAns =
        (.error "Nonce mismatch", sessions)) ∧
    (∀ (sessions : List (String × AuthHandler.AuthSession)) (body : List Nat)
        (dh : AuthHandler.DHParams) (encAns : List Nat) (r : AuthHandler.ReqDHParams),
      AuthHandler.parseReqDHParams body = some r →
      AuthHandler.mapGet sessions (AuthHandler.bytesToHex r.nonce) = none →
      AuthHandler.handleReqDHParams sessions body dh encAns =
        (.error "Session not found", sessions)) := by
  refine ⟨?_, ?_, ?_⟩
  · intro sessions0 body1 sN now
    exact ⟨{ nonce := MTProto.jsSlice body1 4 20, serverNonce := sN,
             p := AuthHandler.generatePQ.1, q := AuthHandler.generatePQ.2.1,
             pq := AuthHandler.generatePQ.2.2, created := now },
           AuthHandler.mapGet_mapSet _ _ _, rfl, rfl⟩
  · intro sessions body dh encAns r s hparse hget hnn hsn
    unfold AuthHandler.handleReqDHParams
    simp only [hparse, hget]
    rw [if_pos (by simp [AuthHandler.arraysEqual, hnn, Ne.symm hsn])]
  · intro sessions body dh encAns r hparse hget
    unfold AuthHandler.handleReqDHParams
    simp only [hparse, hget]

/-- Concrete handshake fixtures for the auth-handler claims. -/
def cxN1 : List Nat := List.replicate 16 1

def cxS1 : List Nat := List.replicate 16 2

def cxSession1 : AuthHandler.AuthSession :=
  { nonce := cxN1, serverNonce := cxS1, p := [17], q := [19], pq := [1, 67], created := 0 }

def cxTable : List (String × AuthHandler.AuthSession) :=
  [(AuthHandler.bytesToHex cxN1, cxSession1)]

def cxBody2 : List Nat := [0, 0, 0, 0] ++ List.replicate 16 3 ++ List.replicate 180 0

def cxBody3 : List Nat := [0, 0, 0, 0] ++ cxN1 ++ List.replicate 180 0

def cxBody4 : List Nat := [0, 0, 0, 0] ++ cxN1 ++ List.replicate 60 0

def cxDH : AuthHandler.DHParams := { g := 2, dhPrime := 23, ga := 4 }

set_option maxRecDepth 8000 in
/-- C5 counterexample: with only the session for nonce `cxN1` stored, a
step-2 request carrying the different nonce `3…3` (so nonce ≠ N1) is
rejected with `Session not found` — the nonce-keyed lookup fails before any
nonce comparison — not with the `NonceMismatchError` the claim requires for
every request whose nonce differs from N1. -/
theorem claim_C5_counterexample :
    AuthHandler.handleReqDHParams cxTable cxBody2 cxDH [] =
      (.error "Session not found", cxTable) ∧
    (Except.error "Session not found" : Except String (List Nat)) ≠
      .error "Nonce mismatch" := by
  constructor
  · rfl
  · intro h
    injection h with h2
    exact absurd h2 (by decide)

set_option maxRecDepth 8000 in
/-- C5 witness: the amended statement at concrete inputs — a stored session,
a matching-nonce/mismatching-server-nonce request rejected with
`Nonce mismatch` leaving the table unchanged, and an unknown-nonce request
rejected with `Session not found`. -/
theorem claim_C5_witness :
    (∃ s, AuthHandler.mapGet
        ((AuthHandler.handleReqPq [] ([0, 0, 0, 0] ++ cxN1) cxS1 0).2)
        (AuthHandler.bytesToHex (MTProto.jsSlice ([0, 0, 0, 0] ++ cxN1) 4 20)) = some s ∧
      s.nonce = MTProto.jsSlice ([0, 0, 0, 0] ++ cxN1) 4 20 ∧ s.serverNonce = cxS1) ∧
    AuthHandler.handleReqDHParams cxTable cxBody3 cxDH [] =
      (.error "Nonce mismatch", cxTable) ∧
    AuthHandler.handleReqDHParams cxTable cxBody2 cxDH [9] =
      (.error "Session not found", cxTable) :=
  ⟨claim_C5_nonce_binding_amended.1 [] ([0, 0, 0, 0] ++ cxN1) cxS1 0,
   claim_C5_nonce_binding_amended.2.1 cxTable cxBody3 cxDH [] _ cxSession1 rfl rfl rfl
     (by decide),
   claim_C5_nonce_binding_amended.2.2 cxTable cxBody2 cxDH [9] _ rfl rfl⟩

/-- C6 (amended): only step 2 (`handleReqDHParams`) re-validates the
supplied nonce pair against the stored session, and a mismatch aborts with
an error that leaves the session table unchanged — the record is not
deleted; step 3 (`handleSetClientDHParams`) checks only that some session
exists under the supplied nonce key and performs no server-nonce
re-validation at all: with any server-nonce bytes whatsoever it succeeds
and updates (rather than discards) the stored session. -/
theorem claim_C6_revalidation_amended :
    (∀ (sessions : List (String × AuthHandler.AuthSession)) (body : List Nat)
        (dh : AuthHandler.DHParams) (encAns : List Nat) (r : AuthHandler.ReqDHParams)
        (s : AuthHandler.AuthSession),
      AuthHandler.parseReqDHParams body = some r →
      AuthHandler.mapGet sessions (AuthHandler.bytesToHex r.nonce) = some s →
      s.nonce = r.nonce → s.serverNonce ≠ r.serverNonce →
      AuthHandler.handleReqDHParams sessions body dh encAns =
        (.error "Nonce mismatch", sessions)) ∧
    (∀ (sessions : List (String × AuthHandler.AuthSession)) (body authKey : List Nat)
        (sha1 : List Nat → List Nat) (s : AuthHandler.AuthSession),
      76 ≤ body.length →
      AuthHandler.mapGet sessions (AuthHandler.bytesToHex (MTProto.jsSlice body 4 20)) =
        some s →
      AuthHandler.handleSetClientDHParams sessions body authKey sha1 =
        (.ok (AuthHandler.createDHGenOk (MTProto.jsSlice body 4 20)
            (MTProto.jsSlice body 20 36) (MTProto.jsSlice (sha1 authKey) 0 16)),
         AuthHandler.mapSet sessions (AuthHandler.bytesToHex (MTProto.jsSlice body 4 20))
           { s with authKey := some authKey,
                    authKeyId := some (MTProto.jsSlice (sha1 authKey) (-8)
                      (sha1 authKey).length) })) := by
  constructor
  · intro sessions body dh encAns r s hparse hget hnn hsn
    unfold AuthHandler.handleReqDHParams
    simp only [hparse, hget]
    rw [if_pos (by simp [AuthHandler.arraysEqual, hnn, Ne.symm hsn])]
  · intro sessions body authKey sha1 s h76 hget
    unfold AuthHandler.handleSetClientDHParams
    have hread : AuthHandler.readU32dbl body 36 =
        some (MTProto.leVal ((body.drop (2 * 36)).take 4)) := by
      unfold AuthHandler.readU32dbl
      rw [if_pos (by omega)]
    simp only [hread, hget]

set_option maxRecDepth 8000 in
/-- C6 counterexample: step 3 with the correct nonce `cxN1` but a server
nonce (all zeros) different from the stored `cxS1` succeeds — the call
returns an `ok` response — and the session record is still present in the
table afterwards, contradicting the claim that every step after step 1
re-validates both nonces and deletes the session on any mismatch. -/
theorem claim_C6_counterexample :
    ((AuthHandler.handleSetClientDHParams cxTable cxBody4 (List.replicate 256 5)
        (fun _ => List.range 20)).1.toOption.isSome = true) ∧
    ((AuthHandler.mapGet (AuthHandler.handleSetClientDHParams cxTable cxBody4
        (List.replicate 256 5) (fun _ => List.range 20)).2
        (AuthHandler.bytesToHex cxN1)).isSome = true) ∧
    cxSession1.serverNonce ≠ MTProto.jsSlice cxBody4 20 36 := by
  refine ⟨rfl, rfl, by decide⟩

set_option maxRecDepth 8000 in
/-- C6 witness: the amended statement at concrete inputs — a step-2
mismatch rejected with the table unchanged, and a step-3 call with a
mismatched server nonce succeeding and updating the stored session. -/
theorem claim_C6_witness :
    AuthHandler.handleReqDHParams cxTable cxBody3 cxDH [7] =
      (.error "Nonce mismatch", cxTable) ∧
    AuthHandler.handleSetClientDHParams cxTable cxBody4 (List.replicate 256 5)
        (fun _ => List.range 20) =
      (.ok (AuthHandler.createDHGenOk (MTProto.jsSlice cxBody4 4 20)
          (MTProto.jsSlice cxBody4 20 36) (MTProto.jsSlice (List.range 20) 0 16)),
       AuthHandler.mapSet cxTable (AuthHandler.bytesToHex (MTProto.jsSlice cxBody4 4 20))
         { cxSession1 with authKey := some (List.replicate 256 5),
                           authKeyId := some (MTProto.jsSlice (List.range 20) (-8)
                             (List.range 20).length) }) :=
  ⟨claim_C6_revalidation_amended.1 cxTable cxBody3 cxDH [7] _ cxSession1 rfl rfl rfl
     (by decide),
   claim_C6_revalidation_amended.2 cxTable cxBody4 (List.replicate 256 5)
     (fun _ => List.range 20) cxSession1 (by decide) rfl⟩

/-- C9 (confirmed): for any handler table, a message whose constructor is
not registered is answered by the `handleUnknownMethod` fallback with the
structured `Method not implemented` error response rather than an escaping
exception; and when a registered handler throws, `handle` converts the
exception into the structured `createErrorResponse` reply carrying the
thrown message. -/
theorem claim_C9_unknown_opcode :
    ∀ (table : List (Int × MessageHandler.HandlerFn)) (msg : MessageHandler.RouterMessage)
      (g : Nat),
      (table.find? (fun kv => kv.1 = msg.ctor) = none →
        MessageHandler.handle table msg g =
          some (MessageHandler.createErrorResponse msg "Method not implemented" g)) ∧
      (∀ (h : Int × MessageHandler.HandlerFn) (e : String),
        table.find? (fun kv => kv.1 = msg.ctor) = some h → h.2 msg = .error e →
        MessageHandler.handle table msg g =
          some (MessageHandler.createErrorResponse msg e g)) := by
  intro table msg g
  constructor
  · intro hnone
    unfold MessageHandler.handle
    simp only [hnone]
    rfl
  · intro h e hfind herr
    unfold MessageHandler.handle
    simp [hfind, herr]

/-- C9 witness: an unregistered opcode answered with the structured
`Method not implemented` reply, and a registered throwing handler converted
into a structured error reply with its message. -/
theorem claim_C9_witness :
    MessageHandler.handle [] { authKeyId := 0, messageId := 1, ctor := 5, data := [] } 3 =
      some (MessageHandler.createErrorResponse
        { authKeyId := 0, messageId := 1, ctor := 5, data := [] } "Method not implemented" 3) ∧
    MessageHandler.handle [((7 : Int), fun _ => .error "boom")]
        { authKeyId := 0, messageId := 1, ctor := 7, data := [] } 3 =
      some (MessageHandler.createErrorResponse
        { authKeyId := 0, messageId := 1, ctor := 7, data := [] } "boom" 3) :=
  ⟨(claim_C9_unknown_opcode [] { authKeyId := 0, messageId := 1, ctor := 5, data := [] }
      3).1 rfl,
   (claim_C9_unknown_opcode [((7 : Int), fun _ => .error "boom")]
      { authKeyId := 0, messageId := 1, ctor := 7, data := [] } 3).2
     ((7 : Int), fun _ => .error "boom") "boom" rfl rfl⟩
